import Mathlib

/-!
# hystrix-cpp: the per-key circuit breaker of `src/main.cpp`

A shallow embedding of `CircuitBreaker::run` and of the data it works on,
followed by the properties of the breaker's state machine.

Names follow the source.  The specification renames the phases:

* source `OPEN`     is the spec's `NORMAL`  (calls are let through),
* source `CLOSED`   is the spec's `BLOCKED` (calls are rejected during cool-down),
* source `SEMIOPEN` is the spec's `PROBING` (one trial call is let through).

Modelling conventions.

* `int` fields (`max_retries`, `retries`) are `Int`.  Signed overflow is undefined
  in C++, so there is no behaviour to embed past `INT_MAX`; the development covers
  executions in which `retries` stays below it.
* Time points are `Int` ticks of `std::chrono::system_clock` since its epoch and
  `wait_time` is a number of seconds; the comparison on line 48 is made in ticks.
* Each `std::chrono::system_clock::now()` in `run` is a separate reading of a
  clock that need not be monotonic; `Clock` carries the two readings.
* A `std::function<T()>` that may throw is a `Unit → Except E T`; the optional
  `fallback` (default `nullptr`) is an `Option` of such a function.  Every
  invocation is recorded, in order, in the `invoked` field of the result.
* `std::unordered_map<std::string, CircuitBreakerMetadata>` is a function from
  keys to optional entries.
-/

namespace Hystrix

/-- Source `enum class CircuitBreakerState { OPEN, CLOSED, SEMIOPEN }` (line 24). -/
inductive CircuitBreakerState where
  | OPEN
  | CLOSED
  | SEMIOPEN
  deriving DecidableEq, Repr

/-- Source `struct CircuitBreakerMetadata` (lines 26-32). -/
structure CircuitBreakerMetadata where
  state : CircuitBreakerState
  max_retries : Int
  retries : Int
  wait_time : Int
  last_triggered : Int
  deriving DecidableEq, Repr

/-- Ticks of `std::chrono::system_clock::duration` in one second
(nanoseconds, as in libstdc++). -/
def ticksPerSecond : Int := 1000000000

/-- The two places where `run` reads `std::chrono::system_clock::now()`:
line 46 (on entry, when the state is `CLOSED`) and line 72 (when tripping). -/
structure Clock where
  atEntry : Int
  atFailure : Int
  deriving DecidableEq, Repr

/-- The object `CircuitBreaker`: its only member is the map
`_command_to_metadata` (line 34). -/
structure CircuitBreaker where
  command_to_metadata : String → Option CircuitBreakerMetadata

/-- The registry of a newly constructed `CircuitBreaker` (line 85): an empty map. -/
def CircuitBreaker.empty : CircuitBreaker :=
  { command_to_metadata := fun _ => none }

/-- What a call of `run` can throw: the breaker's own `OpenCircuitException`
(lines 14-20, thrown on line 52) carrying the key, or an exception that left
`f` or `fallback` and is passed on as it is (lines 50, 77, 79). -/
inductive Thrown (E : Type) where
  | OpenCircuitException (key : String)
  | rethrown (e : E)
  deriving DecidableEq, Repr

/-- Which of the two callables was invoked. -/
inductive Invocation where
  | operation
  | fallback
  deriving DecidableEq, Repr

/-- Everything observable of one call of `run`: the registry afterwards, the
value returned or the exception thrown, and the callables invoked, in order. -/
structure RunResult (E T : Type) where
  registry : CircuitBreaker
  outcome : Except (Thrown E) T
  invoked : List Invocation

/-- The value `x` built on line 40: designated initialisers for `max_retries`
and `wait_time`, every other member value-initialised (first enumerator, zero,
the clock's epoch). -/
def initialMetadata : CircuitBreakerMetadata :=
  { state := CircuitBreakerState.OPEN
    max_retries := 2
    retries := 0
    wait_time := 10
    last_triggered := 0 }

/-- Source `_command_to_metadata.insert({key, x})` (lines 41-43):
`std::unordered_map::insert` adds the pair only when the key is absent, and in
both cases yields the element now stored under the key. -/
def CircuitBreaker.insert (cb : CircuitBreaker) (key : String)
    (x : CircuitBreakerMetadata) : CircuitBreaker × CircuitBreakerMetadata :=
  match cb.command_to_metadata key with
  | some m => (cb, m)
  | none =>
    ({ command_to_metadata := fun k => if k = key then some x else cb.command_to_metadata k }, x)

/-- Writing through the reference `metadata` (line 43) into the map element of `key`. -/
def CircuitBreaker.assign (cb : CircuitBreaker) (key : String)
    (m : CircuitBreakerMetadata) : CircuitBreaker :=
  { command_to_metadata := fun k => if k = key then some m else cb.command_to_metadata k }

/-- The result of calling a callable, seen from the caller of `run`: a value is
returned, an exception is passed on unchanged. -/
def propagate {E T : Type} (r : Except E T) : Except (Thrown E) T :=
  match r with
  | Except.ok v => Except.ok v
  | Except.error e => Except.error (Thrown.rethrown e)

/-- Lines 59-80 of `run`: the `try` block around `f()` and its `catch (...)`.
`metadata` is the referenced map element as it stands on line 58. -/
def attempt {E T : Type} (cb : CircuitBreaker) (clk : Clock) (key : String)
    (metadata : CircuitBreakerMetadata) (f : Unit → Except E T)
    (fallback : Option (Unit → Except E T)) : RunResult E T :=
  match f () with
  | Except.ok x =>
    -- lines 61-66
    let metadata :=
      if metadata.state = CircuitBreakerState.SEMIOPEN then
        { metadata with state := CircuitBreakerState.OPEN, retries := 0 }
      else metadata
    { registry := cb.assign key metadata
      outcome := Except.ok x
      invoked := [Invocation.operation] }
  | Except.error e =>
    -- line 68
    let metadata := { metadata with retries := metadata.retries + 1 }
    -- lines 70-74
    let metadata :=
      if metadata.retries > metadata.max_retries then
        { metadata with last_triggered := clk.atFailure, state := CircuitBreakerState.CLOSED }
      else metadata
    -- lines 76-79
    match fallback with
    | some fb =>
      { registry := cb.assign key metadata
        outcome := propagate (fb ())
        invoked := [Invocation.operation, Invocation.fallback] }
    | none =>
      { registry := cb.assign key metadata
        outcome := Except.error (Thrown.rethrown e)
        invoked := [Invocation.operation] }

/-- Source `CircuitBreaker::run` (lines 37-81). -/
def run {E T : Type} (cb : CircuitBreaker) (clk : Clock) (key : String)
    (f : Unit → Except E T) (fallback : Option (Unit → Except E T)) : RunResult E T :=
  -- lines 40-43
  let x := initialMetadata
  let inserted := cb.insert key x
  let cb := inserted.1
  let metadata := inserted.2
  -- line 45
  if metadata.state = CircuitBreakerState.CLOSED then
    let _now := clk.atEntry
    -- line 48
    if _now - metadata.last_triggered < metadata.wait_time * ticksPerSecond then
      match fallback with
      | some fb =>
        { registry := cb
          outcome := propagate (fb ())
          invoked := [Invocation.fallback] }
      | none =>
        { registry := cb
          outcome := Except.error (Thrown.OpenCircuitException key)
          invoked := [] }
    else
      -- lines 55-56
      let metadata :=
        { metadata with last_triggered := _now, state := CircuitBreakerState.SEMIOPEN }
      attempt cb clk key metadata f fallback
  else
    attempt cb clk key metadata f fallback

/-- The element that `metadata` refers to on line 43: the stored entry of `key`,
or the freshly inserted `x` when the key was absent. -/
def CircuitBreaker.entry (cb : CircuitBreaker) (key : String) : CircuitBreakerMetadata :=
  (cb.insert key initialMetadata).2

/-- The condition of line 48 for entry `m` at clock reading `now`:
the cool-down has not elapsed yet. -/
def withinCoolDown (m : CircuitBreakerMetadata) (now : Int) : Prop :=
  now - m.last_triggered < m.wait_time * ticksPerSecond

instance (m : CircuitBreakerMetadata) (now : Int) : Decidable (withinCoolDown m now) := by
  unfold withinCoolDown; infer_instance

/-- One call of `run` as a caller issues it (as the loop of `main`, lines 90-125,
does for every line of input): the key, the clock readings during the call, the
operation and the optional fallback. -/
structure Call (E T : Type) where
  key : String
  clk : Clock
  f : Unit → Except E T
  fallback : Option (Unit → Except E T)

/-- Performing the call on a registry. -/
def Call.perform {E T : Type} (c : Call E T) (cb : CircuitBreaker) : RunResult E T :=
  run cb c.clk c.key c.f c.fallback

/-- The registry after a sequence of calls performed one after the other on the
same `CircuitBreaker` object. -/
def runAll {E T : Type} (cb : CircuitBreaker) : List (Call E T) → CircuitBreaker
  | [] => cb
  | c :: cs => runAll (c.perform cb).registry cs

/-- Whether the operation of the call throws. -/
def Call.fails {E T : Type} (c : Call E T) : Bool :=
  match c.f () with
  | Except.ok _ => false
  | Except.error _ => true

/-- Number of calls in `cs` that are made on `key` and whose operation throws. -/
def failuresOn {E T : Type} (key : String) (cs : List (Call E T)) : Nat :=
  (cs.filter (fun c => decide (c.key = key) && c.fails)).length

/-- A clock that shows `t` at both readings of a call. -/
def Clock.frozen (t : Int) : Clock :=
  { atEntry := t, atFailure := t }

/-- The time point `n` seconds after the epoch, in ticks. -/
def seconds (n : Int) : Int := n * ticksPerSecond

/-- The operation of mode `y` of `main` (line 94): it always throws. -/
def alwaysFails : Unit → Except String Int :=
  fun _ => Except.error "failure inside f"

/-- The operation of mode `n` of `main` (line 104): it returns 1. -/
def alwaysSucceeds : Unit → Except String Int :=
  fun _ => Except.ok 1

/-- The fallback of the third mode of `main` (line 116): it returns -1. -/
def sentinelFallback : Unit → Except String Int :=
  fun _ => Except.ok (-1)

/-- Mode `y` of `main` (lines 91-101): the operation always throws, no fallback.
The call is made on `key` with the clock showing `t` seconds. -/
def modeY (key : String) (t : Int) : Call String Int :=
  { key := key, clk := Clock.frozen (seconds t), f := alwaysFails, fallback := none }

/-- Mode `n` of `main` (lines 102-111): the operation always succeeds, no fallback. -/
def modeN (key : String) (t : Int) : Call String Int :=
  { key := key, clk := Clock.frozen (seconds t), f := alwaysSucceeds, fallback := none }

/-- The remaining mode of `main` (lines 112-124): the operation always throws and
the fallback returns -1. -/
def modeF (key : String) (t : Int) : Call String Int :=
  { key := key, clk := Clock.frozen (seconds t), f := alwaysFails, fallback := some sentinelFallback }

/-- Two failures on `"k"` with a success on `"k"` and a failure on another key in
between. -/
def intermittent : List (Call String Int) :=
  [modeY "k" 0, modeN "k" 1, modeY "other" 2, modeF "k" 3, modeN "k" 4]

/-- The concrete scenario: five calls of mode `y` on the new key `"k"`, three at
t = 0, one at t = 1s and one at t = 11s. -/
def scenario : List (Call String Int) :=
  [modeY "k" 0, modeY "k" 0, modeY "k" 0, modeY "k" 1, modeY "k" 11]

/-- The registry of the scenario after its first `n` calls, starting from a new
`CircuitBreaker`. -/
def scenarioAfter (n : Nat) : CircuitBreaker :=
  runAll CircuitBreaker.empty (scenario.take n)

/-- A registry whose only entry, under `"k"`, was tripped at the epoch after
three failures. -/
def trippedRegistry : CircuitBreaker :=
  CircuitBreaker.empty.assign "k"
    { state := CircuitBreakerState.CLOSED
      max_retries := 2
      retries := 3
      wait_time := 10
      last_triggered := 0 }

/-- The registries a program can hold: that of a newly constructed
`CircuitBreaker`, and whatever a call of `run` (at any result type, with any
key, callables and clock readings) leaves behind from such a registry. -/
inductive Reachable : CircuitBreaker → Prop where
  | empty : Reachable CircuitBreaker.empty
  | step {E T : Type} (cb : CircuitBreaker) (clk : Clock) (key : String)
      (f : Unit → Except E T) (fallback : Option (Unit → Except E T)) :
      Reachable cb → Reachable (run cb clk key f fallback).registry

/-- What holds of every entry a program can observe between calls: the policy of
line 40, and a failure count that matches the phase. -/
def CircuitBreakerMetadata.Settled (m : CircuitBreakerMetadata) : Prop :=
  m.max_retries = 2 ∧ m.wait_time = 10 ∧
  ((m.state = CircuitBreakerState.OPEN ∧ 0 ≤ m.retries ∧ m.retries ≤ 2) ∨
   (m.state = CircuitBreakerState.CLOSED ∧ 2 < m.retries))

/-- The values assigned to `metadata.state` inside the `try` block and its
handler (lines 62 and 73), in order, when the block is entered with `metadata`. -/
def attemptStateWrites {E T : Type} (metadata : CircuitBreakerMetadata)
    (f : Unit → Except E T) : List CircuitBreakerState :=
  match f () with
  | Except.ok _ =>
    -- lines 61-62
    if metadata.state = CircuitBreakerState.SEMIOPEN then [CircuitBreakerState.OPEN] else []
  | Except.error _ =>
    -- lines 68-73
    if metadata.retries + 1 > metadata.max_retries then [CircuitBreakerState.CLOSED] else []

/-- The values assigned to `metadata.state` during one call of `run` (lines 56,
62 and 73), in order.  The fallback plays no part in them. -/
def stateWrites {E T : Type} (cb : CircuitBreaker) (clk : Clock) (key : String)
    (f : Unit → Except E T) : List CircuitBreakerState :=
  let metadata := (cb.insert key initialMetadata).2
  -- line 45
  if metadata.state = CircuitBreakerState.CLOSED then
    -- line 48
    if clk.atEntry - metadata.last_triggered < metadata.wait_time * ticksPerSecond then
      []
    else
      -- lines 55-56
      CircuitBreakerState.SEMIOPEN ::
        attemptStateWrites
          { metadata with last_triggered := clk.atEntry, state := CircuitBreakerState.SEMIOPEN } f
  else
    attemptStateWrites metadata f

/-- The phases the entry of `key` goes through during one call of `run`: the one
it has on line 43, followed by every value assigned to it. -/
def phaseHistory {E T : Type} (cb : CircuitBreaker) (clk : Clock) (key : String)
    (f : Unit → Except E T) : List CircuitBreakerState :=
  (cb.entry key).state :: stateWrites cb clk key f

/-- Number of places in a history where the phase differs from the one before. -/
def phaseChanges : List CircuitBreakerState → Nat
  | a :: b :: rest => (if a = b then 0 else 1) + phaseChanges (b :: rest)
  | _ => 0

/-- What a caller observes of a sequence of calls performed one after the other,
for each call: what it returned or threw, what it invoked, and the phase of `key`
after it. -/
def runLog {E T : Type} (key : String) (cb : CircuitBreaker) :
    List (Call E T) → List (Except (Thrown E) T × List Invocation × CircuitBreakerState)
  | [] => []
  | c :: cs =>
    ((c.perform cb).outcome, (c.perform cb).invoked, ((c.perform cb).registry.entry key).state)
      :: runLog key (c.perform cb).registry cs

/-- Two entries that agree in everything but, while in phase NORMAL (source
`OPEN`), possibly `last_triggered`. -/
def CircuitBreakerMetadata.AgreesWith (m₁ m₂ : CircuitBreakerMetadata) : Prop :=
  m₁.state = m₂.state ∧ m₁.max_retries = m₂.max_retries ∧ m₁.retries = m₂.retries ∧
  m₁.wait_time = m₂.wait_time ∧
  (m₁.state = CircuitBreakerState.OPEN ∨ m₁.last_triggered = m₂.last_triggered)

deriving instance DecidableEq for Except

/-! ## Properties -/

/-- C1: when the entry of `key` is BLOCKED (source `CLOSED`) and the cool-down has
not elapsed at the clock reading, `run` without a fallback throws
`OpenCircuitException` carrying exactly `key`, invokes nothing, and leaves the
entry of `key` (indeed the whole registry) as it was. -/
theorem run_blocked_without_fallback {E T : Type} (cb : CircuitBreaker) (clk : Clock)
    (key : String) (f : Unit → Except E T) (m : CircuitBreakerMetadata)
    (hm : cb.command_to_metadata key = some m)
    (hs : m.state = CircuitBreakerState.CLOSED)
    (hc : withinCoolDown m clk.atEntry) :
    (run cb clk key f none).outcome = Except.error (Thrown.OpenCircuitException key) ∧
    (run cb clk key f none).invoked = [] ∧
    (run cb clk key f none).registry.command_to_metadata key = some m ∧
    (run cb clk key f none).registry = cb := by
  unfold withinCoolDown at hc
  simp [run, CircuitBreaker.insert, hm, hs, hc]

theorem run_blocked_without_fallback_witness :
    (run trippedRegistry (Clock.frozen (seconds 1)) "k" alwaysFails none).outcome
        = Except.error (Thrown.OpenCircuitException "k") ∧
    (run trippedRegistry (Clock.frozen (seconds 1)) "k" alwaysFails none).invoked = [] ∧
    (run trippedRegistry (Clock.frozen (seconds 1)) "k" alwaysFails none).registry.command_to_metadata "k"
        = some { state := CircuitBreakerState.CLOSED, max_retries := 2, retries := 3,
                 wait_time := 10, last_triggered := 0 } ∧
    (run trippedRegistry (Clock.frozen (seconds 1)) "k" alwaysFails none).registry
        = trippedRegistry :=
  run_blocked_without_fallback trippedRegistry (Clock.frozen (seconds 1)) "k" alwaysFails
    { state := CircuitBreakerState.CLOSED, max_retries := 2, retries := 3,
      wait_time := 10, last_triggered := 0 }
    (by decide) (by decide) (by decide)

/-- C2: when the entry of `key` is BLOCKED (source `CLOSED`) and the cool-down has
not elapsed at the clock reading, `run` with a fallback ends exactly as the
fallback does (its value is returned), invokes the fallback only and never the
operation, and leaves the entry of `key` (indeed the whole registry) as it was. -/
theorem run_blocked_with_fallback {E T : Type} (cb : CircuitBreaker) (clk : Clock)
    (key : String) (f fb : Unit → Except E T) (m : CircuitBreakerMetadata)
    (hm : cb.command_to_metadata key = some m)
    (hs : m.state = CircuitBreakerState.CLOSED)
    (hc : withinCoolDown m clk.atEntry) :
    (run cb clk key f (some fb)).outcome = propagate (fb ()) ∧
    (∀ v, fb () = Except.ok v → (run cb clk key f (some fb)).outcome = Except.ok v) ∧
    (run cb clk key f (some fb)).invoked = [Invocation.fallback] ∧
    Invocation.operation ∉ (run cb clk key f (some fb)).invoked ∧
    (run cb clk key f (some fb)).registry.command_to_metadata key = some m ∧
    (run cb clk key f (some fb)).registry = cb := by
  unfold withinCoolDown at hc
  have h : run cb clk key f (some fb) =
      { registry := cb, outcome := propagate (fb ()), invoked := [Invocation.fallback] } := by
    simp [run, CircuitBreaker.insert, hm, hs, hc]
  rw [h]
  refine ⟨rfl, ?_, rfl, by simp, hm, rfl⟩
  intro v hv
  simp [hv, propagate]

theorem run_blocked_with_fallback_witness :
    (run trippedRegistry (Clock.frozen (seconds 1)) "k" alwaysFails (some sentinelFallback)).outcome
        = propagate (sentinelFallback ()) ∧
    (∀ v, sentinelFallback () = Except.ok v →
      (run trippedRegistry (Clock.frozen (seconds 1)) "k" alwaysFails (some sentinelFallback)).outcome
        = Except.ok v) ∧
    (run trippedRegistry (Clock.frozen (seconds 1)) "k" alwaysFails (some sentinelFallback)).invoked
        = [Invocation.fallback] ∧
    Invocation.operation ∉
      (run trippedRegistry (Clock.frozen (seconds 1)) "k" alwaysFails (some sentinelFallback)).invoked ∧
    (run trippedRegistry (Clock.frozen (seconds 1)) "k" alwaysFails
        (some sentinelFallback)).registry.command_to_metadata "k"
        = some { state := CircuitBreakerState.CLOSED, max_retries := 2, retries := 3,
                 wait_time := 10, last_triggered := 0 } ∧
    (run trippedRegistry (Clock.frozen (seconds 1)) "k" alwaysFails (some sentinelFallback)).registry
        = trippedRegistry :=
  run_blocked_with_fallback trippedRegistry (Clock.frozen (seconds 1)) "k" alwaysFails
    sentinelFallback
    { state := CircuitBreakerState.CLOSED, max_retries := 2, retries := 3,
      wait_time := 10, last_triggered := 0 }
    (by decide) (by decide) (by decide)

/-- C3: `run` throws the breaker's own `OpenCircuitException` exactly when, on
entry, the key has a stored entry in phase BLOCKED (source `CLOSED`), the
cool-down has not elapsed at the clock reading, and no fallback was given; the
exception then carries `key`.  In every other case the call returns a value or
throws an exception that `f` or the fallback threw. -/
theorem run_open_circuit_iff {E T : Type} (cb : CircuitBreaker) (clk : Clock)
    (key : String) (f : Unit → Except E T) (fallback : Option (Unit → Except E T)) :
    ((∃ k, (run cb clk key f fallback).outcome = Except.error (Thrown.OpenCircuitException k)) ↔
      ((∃ m, cb.command_to_metadata key = some m ∧ m.state = CircuitBreakerState.CLOSED ∧
          withinCoolDown m clk.atEntry) ∧ fallback = none)) ∧
    (∀ k, (run cb clk key f fallback).outcome = Except.error (Thrown.OpenCircuitException k) →
      k = key) ∧
    (¬ ((∃ m, cb.command_to_metadata key = some m ∧ m.state = CircuitBreakerState.CLOSED ∧
          withinCoolDown m clk.atEntry) ∧ fallback = none) →
      (∃ v, (run cb clk key f fallback).outcome = Except.ok v) ∨
      (∃ e, (run cb clk key f fallback).outcome = Except.error (Thrown.rethrown e) ∧
        (f () = Except.error e ∨ ∃ fb, fallback = some fb ∧ fb () = Except.error e))) := by
  unfold withinCoolDown
  cases hk : cb.command_to_metadata key with
  | none =>
    cases fallback with
    | none =>
      cases hf : f () <;>
        simp [run, attempt, CircuitBreaker.insert, hk, hf, initialMetadata]
    | some fb =>
      cases hf : f () <;> cases hb : fb () <;>
        simp [run, attempt, CircuitBreaker.insert, hk, hf, hb, initialMetadata, propagate]
  | some m =>
    by_cases hs : m.state = CircuitBreakerState.CLOSED
    · by_cases hc : clk.atEntry - m.last_triggered < m.wait_time * ticksPerSecond
      · cases fallback with
        | none =>
          simp [run, CircuitBreaker.insert, hk, hs, hc]
        | some fb =>
          cases hb : fb () <;>
            simp [run, CircuitBreaker.insert, hk, hs, hc, hb, propagate]
      · cases fallback with
        | none =>
          cases hf : f () <;>
            simp [run, attempt, CircuitBreaker.insert, hk, hs, hc, hf]
        | some fb =>
          cases hf : f () <;> cases hb : fb () <;>
            simp [run, attempt, CircuitBreaker.insert, hk, hs, hc, hf, hb, propagate]
    · cases fallback with
      | none =>
        cases hf : f () <;>
          simp [run, attempt, CircuitBreaker.insert, hk, hs, hf]
      | some fb =>
        cases hf : f () <;> cases hb : fb () <;>
          simp [run, attempt, CircuitBreaker.insert, hk, hs, hf, hb, propagate]

/-- The entry of another key is not touched by `run`. -/
theorem run_other_key {E T : Type} (cb : CircuitBreaker) (clk : Clock) (a b : String)
    (f : Unit → Except E T) (fallback : Option (Unit → Except E T)) (hab : a ≠ b) :
    (run cb clk a f fallback).registry.command_to_metadata b = cb.command_to_metadata b := by
  have hba : ¬ b = a := fun h => hab h.symm
  cases hk : cb.command_to_metadata a with
  | none =>
    cases fallback with
    | none =>
      cases hf : f () <;>
        simp [run, attempt, CircuitBreaker.insert, CircuitBreaker.assign, hk, hf,
          initialMetadata, hba]
    | some fb =>
      cases hf : f () <;>
        simp [run, attempt, CircuitBreaker.insert, CircuitBreaker.assign, hk, hf,
          initialMetadata, hba]
  | some m =>
    by_cases hs : m.state = CircuitBreakerState.CLOSED
    · by_cases hc : clk.atEntry - m.last_triggered < m.wait_time * ticksPerSecond
      · cases fallback <;> simp [run, CircuitBreaker.insert, hk, hs, hc]
      · cases fallback <;> cases hf : f () <;>
          simp [run, attempt, CircuitBreaker.insert, CircuitBreaker.assign, hk, hs, hc, hf, hba]
    · cases fallback <;> cases hf : f () <;>
        simp [run, attempt, CircuitBreaker.insert, CircuitBreaker.assign, hk, hs, hf, hba]

/-- The entry `run` works on is determined by what is stored under the key. -/
theorem entry_congr (cb₁ cb₂ : CircuitBreaker) (key : String)
    (h : cb₁.command_to_metadata key = cb₂.command_to_metadata key) :
    cb₁.entry key = cb₂.entry key := by
  unfold CircuitBreaker.entry CircuitBreaker.insert
  rw [h]
  cases cb₂.command_to_metadata key <;> rfl

/-- What `run` returns or throws, what it invokes, and the entry it leaves under
the key depend on the registry only through the entry stored under the key. -/
theorem run_congr {E T : Type} (cb₁ cb₂ : CircuitBreaker) (clk : Clock) (key : String)
    (f : Unit → Except E T) (fallback : Option (Unit → Except E T))
    (h : cb₁.command_to_metadata key = cb₂.command_to_metadata key) :
    (run cb₁ clk key f fallback).outcome = (run cb₂ clk key f fallback).outcome ∧
    (run cb₁ clk key f fallback).invoked = (run cb₂ clk key f fallback).invoked ∧
    (run cb₁ clk key f fallback).registry.command_to_metadata key
      = (run cb₂ clk key f fallback).registry.command_to_metadata key := by
  cases hk : cb₂.command_to_metadata key with
  | none =>
    rw [hk] at h
    cases fallback with
    | none =>
      cases hf : f () <;>
        simp [run, attempt, CircuitBreaker.insert, CircuitBreaker.assign, hk, h, hf,
          initialMetadata]
    | some fb =>
      cases hf : f () <;>
        simp [run, attempt, CircuitBreaker.insert, CircuitBreaker.assign, hk, h, hf,
          initialMetadata]
  | some m =>
    rw [hk] at h
    by_cases hs : m.state = CircuitBreakerState.CLOSED
    · by_cases hc : clk.atEntry - m.last_triggered < m.wait_time * ticksPerSecond
      · cases fallback <;> simp [run, CircuitBreaker.insert, hk, h, hs, hc]
      · cases fallback <;> cases hf : f () <;>
          simp [run, attempt, CircuitBreaker.insert, CircuitBreaker.assign, hk, h, hs, hc, hf]
    · cases fallback <;> cases hf : f () <;>
        simp [run, attempt, CircuitBreaker.insert, CircuitBreaker.assign, hk, h, hs, hf]

/-- One call on a key whose entry is in phase NORMAL (source `OPEN`): the
operation is invoked; a success leaves the entry as it was, a failure adds one
to `retries` and trips the breaker exactly when the new count exceeds
`max_retries`. -/
theorem run_normal_step {E T : Type} (cb : CircuitBreaker) (clk : Clock) (key : String)
    (f : Unit → Except E T) (fallback : Option (Unit → Except E T))
    (hs : (cb.entry key).state = CircuitBreakerState.OPEN) :
    Invocation.operation ∈ (run cb clk key f fallback).invoked ∧
    (∀ v, f () = Except.ok v →
      (run cb clk key f fallback).registry.entry key = cb.entry key) ∧
    (∀ e, f () = Except.error e → (cb.entry key).retries + 1 ≤ (cb.entry key).max_retries →
      (run cb clk key f fallback).registry.entry key
        = { cb.entry key with retries := (cb.entry key).retries + 1 }) ∧
    (∀ e, f () = Except.error e → (cb.entry key).max_retries < (cb.entry key).retries + 1 →
      (run cb clk key f fallback).registry.entry key
        = { cb.entry key with
            retries := (cb.entry key).retries + 1
            last_triggered := clk.atFailure
            state := CircuitBreakerState.CLOSED }) := by
  cases hk : cb.command_to_metadata key with
  | none =>
    cases fallback <;> cases hf : f () <;>
      simp [run, attempt, CircuitBreaker.entry, CircuitBreaker.insert, CircuitBreaker.assign,
        hk, hf, initialMetadata]
  | some m =>
    have hm : m.state = CircuitBreakerState.OPEN := by
      simpa [CircuitBreaker.entry, CircuitBreaker.insert, hk] using hs
    cases fallback <;> cases hf : f () <;>
      simp [run, attempt, CircuitBreaker.entry, CircuitBreaker.insert, CircuitBreaker.assign,
        hk, hf, hm]

/-- Appending one call adds one failure exactly when that call is on the key and
its operation throws. -/
theorem failuresOn_append_singleton {E T : Type} (key : String) (pre : List (Call E T))
    (c : Call E T) :
    failuresOn key (pre ++ [c])
      = failuresOn key pre + (if c.key = key ∧ c.fails = true then 1 else 0) := by
  unfold failuresOn
  rw [List.filter_append, List.length_append]
  by_cases h : c.key = key ∧ c.fails = true
  · simp [List.filter_cons, h.1, h.2]
  · have h' : (decide (c.key = key) && c.fails) = false := by
      rcases not_and_or.mp h with h1 | h1
      · simp [h1]
      · simp [h1]
    simp [List.filter_cons, h', h]

/-- Counting failures from the front of the list. -/
theorem failuresOn_cons {E T : Type} (key : String) (c : Call E T) (cs : List (Call E T)) :
    failuresOn key (c :: cs)
      = (if c.key = key ∧ c.fails = true then 1 else 0) + failuresOn key cs := by
  unfold failuresOn
  by_cases h : c.key = key ∧ c.fails = true
  · simp [List.filter_cons, h.1, h.2, Nat.add_comm]
  · have h' : (decide (c.key = key) && c.fails) = false := by
      rcases not_and_or.mp h with h1 | h1
      · simp [h1]
      · simp [h1]
    simp [List.filter_cons, h', h]

/-- As long as the failures on `key` stay within `max_retries = 2`, a key in phase
NORMAL stays in phase NORMAL and its `retries` has grown by the number of those
failures, whatever successes and calls on other keys lie in between. -/
theorem runAll_normal {E T : Type} (key : String) (cs : List (Call E T)) :
    ∀ cb : CircuitBreaker,
      (cb.entry key).state = CircuitBreakerState.OPEN →
      (cb.entry key).max_retries = 2 →
      (cb.entry key).retries + failuresOn key cs ≤ 2 →
      ((runAll cb cs).entry key).state = CircuitBreakerState.OPEN ∧
      ((runAll cb cs).entry key).max_retries = 2 ∧
      ((runAll cb cs).entry key).retries = (cb.entry key).retries + failuresOn key cs := by
  induction cs with
  | nil =>
    intro cb hs hmax _
    simp [runAll, failuresOn, hs, hmax]
  | cons c cs ih =>
    intro cb hs hmax hle
    rw [failuresOn_cons] at hle ⊢
    by_cases hkey : c.key = key
    · obtain ⟨_, hok, hfail, _⟩ := run_normal_step cb c.clk key c.f c.fallback hs
      cases hf : c.f () with
      | ok v =>
        have hnf : c.fails = false := by simp [Call.fails, hf]
        have he : (c.perform cb).registry.entry key = cb.entry key := by
          simpa [Call.perform, hkey] using hok v hf
        simp only [hnf, and_false, if_false, Bool.false_eq_true] at hle ⊢
        have := ih (c.perform cb).registry (by rw [he]; exact hs) (by rw [he]; exact hmax)
          (by rw [he]; simpa using hle)
        rw [he] at this
        simpa [runAll] using this
      | error e =>
        have hnf : c.fails = true := by simp [Call.fails, hf]
        simp only [hkey, hnf, and_self, if_true] at hle ⊢
        have hroom : (cb.entry key).retries + 1 ≤ (cb.entry key).max_retries := by
          rw [hmax]; push_cast at hle; omega
        have he : (c.perform cb).registry.entry key
            = { cb.entry key with retries := (cb.entry key).retries + 1 } := by
          simpa [Call.perform, hkey] using hfail e hf hroom
        have := ih (c.perform cb).registry (by rw [he]; exact hs) (by rw [he]; exact hmax)
          (by rw [he]; push_cast at hle; dsimp only; omega)
        rw [he] at this
        dsimp only at this
        refine ⟨by simpa [runAll] using this.1, by simpa [runAll] using this.2.1, ?_⟩
        have h3 := this.2.2
        simp only [runAll]
        rw [h3]; push_cast; ring
    · have hne : ¬ (c.key = key ∧ c.fails = true) := fun h => hkey h.1
      simp only [hne, if_false] at hle ⊢
      have he : (c.perform cb).registry.entry key = cb.entry key :=
        entry_congr _ _ _ (run_other_key cb c.clk c.key key c.f c.fallback hkey)
      have := ih (c.perform cb).registry (by rw [he]; exact hs) (by rw [he]; exact hmax)
        (by rw [he]; simpa using hle)
      rw [he] at this
      simpa [runAll] using this

/-- Running a list of calls followed by one more call. -/
theorem runAll_append_singleton {E T : Type} (cs : List (Call E T)) (c : Call E T) :
    ∀ cb : CircuitBreaker, runAll cb (cs ++ [c]) = (c.perform (runAll cb cs)).registry := by
  induction cs with
  | nil => intro cb; rfl
  | cons d ds ih => intro cb; simp [runAll, ih]

/-- C4: the failure counter is cumulative.  Start from a registry without an entry
for `key` and perform any finite sequence `pre` of calls (operations succeeding or
failing in any order, with or without fallback, on this or on other keys) in which
at most two operations on `key` have failed.  Then the key is still in phase
NORMAL (source `OPEN`) with `max_retries = 2` and `retries` equal to the number of
those failures, and the next call `c` on `key` invokes its operation.  After `c`
the phase is still NORMAL if the failures on `key` are still at most two, and it
is BLOCKED (source `CLOSED`), with `retries = 3`, if `c` was the third failure. -/
theorem cumulative_failures_trip {E T : Type} (cb : CircuitBreaker) (key : String)
    (pre : List (Call E T)) (c : Call E T)
    (hfresh : cb.command_to_metadata key = none) (hc : c.key = key)
    (hpre : failuresOn key pre ≤ 2) :
    ((runAll cb pre).entry key).state = CircuitBreakerState.OPEN ∧
    ((runAll cb pre).entry key).max_retries = 2 ∧
    ((runAll cb pre).entry key).retries = failuresOn key pre ∧
    Invocation.operation ∈ (c.perform (runAll cb pre)).invoked ∧
    (failuresOn key (pre ++ [c]) ≤ 2 →
      ((runAll cb (pre ++ [c])).entry key).state = CircuitBreakerState.OPEN) ∧
    (failuresOn key (pre ++ [c]) = 3 →
      ((runAll cb (pre ++ [c])).entry key).state = CircuitBreakerState.CLOSED ∧
      ((runAll cb (pre ++ [c])).entry key).retries = 3) := by
  have h0 : cb.entry key = initialMetadata := by
    simp [CircuitBreaker.entry, CircuitBreaker.insert, hfresh]
  have hinit := runAll_normal key pre cb (by rw [h0]; rfl) (by rw [h0]; rfl)
    (by rw [h0]; simp only [initialMetadata]; omega)
  rw [h0] at hinit
  obtain ⟨hs, hmax, hr⟩ := hinit
  have hr' : ((runAll cb pre).entry key).retries = (failuresOn key pre : Int) := by
    rw [hr]; simp [initialMetadata]
  obtain ⟨hinv, hok, hfail, htrip⟩ :=
    run_normal_step (runAll cb pre) c.clk key c.f c.fallback hs
  refine ⟨hs, hmax, hr', ?_, ?_, ?_⟩
  · simpa [Call.perform, hc] using hinv
  · intro hle
    have := runAll_normal key (pre ++ [c]) cb (by rw [h0]; rfl) (by rw [h0]; rfl)
      (by rw [h0]; simp only [initialMetadata]; omega)
    exact this.1
  · intro h3
    rw [failuresOn_append_singleton] at h3
    have hcf : c.fails = true := by
      by_contra hn
      have : ¬ (c.key = key ∧ c.fails = true) := fun h => hn h.2
      simp only [this, if_false] at h3
      omega
    have h2 : failuresOn key pre = 2 := by
      simp only [hc, hcf, and_self, if_true] at h3
      omega
    cases hf : c.f () with
    | ok v => simp [Call.fails, hf] at hcf
    | error e =>
      have hover : ((runAll cb pre).entry key).max_retries
          < ((runAll cb pre).entry key).retries + 1 := by
        rw [hmax, hr', h2]; norm_num
      have he := htrip e hf hover
      rw [runAll_append_singleton]
      have he' : (c.perform (runAll cb pre)).registry.entry key
          = { (runAll cb pre).entry key with
              retries := ((runAll cb pre).entry key).retries + 1
              last_triggered := c.clk.atFailure
              state := CircuitBreakerState.CLOSED } := by
        simpa [Call.perform, hc] using he
      rw [he']
      refine ⟨rfl, ?_⟩
      dsimp only
      rw [hr', h2]; norm_num

theorem cumulative_failures_trip_witness :
    ((runAll CircuitBreaker.empty intermittent).entry "k").state = CircuitBreakerState.OPEN ∧
    ((runAll CircuitBreaker.empty intermittent).entry "k").max_retries = 2 ∧
    ((runAll CircuitBreaker.empty intermittent).entry "k").retries
      = failuresOn "k" intermittent ∧
    Invocation.operation ∈ ((modeY "k" 5).perform (runAll CircuitBreaker.empty intermittent)).invoked ∧
    (failuresOn "k" (intermittent ++ [modeY "k" 5]) ≤ 2 →
      ((runAll CircuitBreaker.empty (intermittent ++ [modeY "k" 5])).entry "k").state
        = CircuitBreakerState.OPEN) ∧
    (failuresOn "k" (intermittent ++ [modeY "k" 5]) = 3 →
      ((runAll CircuitBreaker.empty (intermittent ++ [modeY "k" 5])).entry "k").state
        = CircuitBreakerState.CLOSED ∧
      ((runAll CircuitBreaker.empty (intermittent ++ [modeY "k" 5])).entry "k").retries = 3) :=
  cumulative_failures_trip CircuitBreaker.empty "k" intermittent (modeY "k" 5)
    (by rfl) (by rfl) (by decide)

/-- C5: when the entry of `key` is BLOCKED (source `CLOSED`) and the cool-down has
elapsed at the clock reading (`now - last_triggered >= wait_time`, the boundary
included), `run` does not reject the call: with or without a fallback the
operation is invoked, first and once, and the breaker's own
`OpenCircuitException` is not thrown. -/
theorem run_after_cool_down {E T : Type} (cb : CircuitBreaker) (clk : Clock)
    (key : String) (f : Unit → Except E T) (fallback : Option (Unit → Except E T))
    (m : CircuitBreakerMetadata)
    (hm : cb.command_to_metadata key = some m)
    (hs : m.state = CircuitBreakerState.CLOSED)
    (hc : m.wait_time * ticksPerSecond ≤ clk.atEntry - m.last_triggered) :
    (run cb clk key f fallback).invoked.head? = some Invocation.operation ∧
    (run cb clk key f fallback).invoked.count Invocation.operation = 1 ∧
    (∀ k, (run cb clk key f fallback).outcome ≠ Except.error (Thrown.OpenCircuitException k)) := by
  have hc' : ¬ clk.atEntry - m.last_triggered < m.wait_time * ticksPerSecond := not_lt.mpr hc
  cases fallback with
  | none =>
    cases hf : f () <;>
      simp [run, attempt, CircuitBreaker.insert, hm, hs, hc', hf]
  | some fb =>
    cases hf : f () <;> cases hb : fb () <;>
      simp [run, attempt, CircuitBreaker.insert, hm, hs, hc', hf, hb, propagate]

theorem run_after_cool_down_witness :
    (run trippedRegistry (Clock.frozen (seconds 10)) "k" alwaysFails none).invoked.head?
      = some Invocation.operation ∧
    (run trippedRegistry (Clock.frozen (seconds 10)) "k" alwaysFails none).invoked.count
      Invocation.operation = 1 ∧
    (∀ k, (run trippedRegistry (Clock.frozen (seconds 10)) "k" alwaysFails none).outcome
      ≠ Except.error (Thrown.OpenCircuitException k)) :=
  run_after_cool_down trippedRegistry (Clock.frozen (seconds 10)) "k" alwaysFails none
    { state := CircuitBreakerState.CLOSED, max_retries := 2, retries := 3,
      wait_time := 10, last_triggered := 0 }
    (by decide) (by decide) (by decide)

/-- C6: a successful probe closes the breaker.  When the entry of `key` is BLOCKED
(source `CLOSED`) with the cool-down elapsed at the clock reading, or is PROBING
(source `SEMIOPEN`), and the operation returns `v`, then `run` returns `v` and
the entry afterwards is in phase NORMAL (source `OPEN`) with `retries = 0`. -/
theorem successful_probe_closes {E T : Type} (cb : CircuitBreaker) (clk : Clock)
    (key : String) (f : Unit → Except E T) (fallback : Option (Unit → Except E T))
    (m : CircuitBreakerMetadata) (v : T)
    (hm : cb.command_to_metadata key = some m)
    (hp : (m.state = CircuitBreakerState.CLOSED ∧
            m.wait_time * ticksPerSecond ≤ clk.atEntry - m.last_triggered) ∨
          m.state = CircuitBreakerState.SEMIOPEN)
    (hf : f () = Except.ok v) :
    (run cb clk key f fallback).outcome = Except.ok v ∧
    ∃ m', (run cb clk key f fallback).registry.command_to_metadata key = some m' ∧
      m'.state = CircuitBreakerState.OPEN ∧ m'.retries = 0 := by
  rcases hp with ⟨hs, hc⟩ | hs
  · have hc' : ¬ clk.atEntry - m.last_triggered < m.wait_time * ticksPerSecond := not_lt.mpr hc
    simp [run, attempt, CircuitBreaker.insert, CircuitBreaker.assign, hm, hs, hc', hf]
  · simp [run, attempt, CircuitBreaker.insert, CircuitBreaker.assign, hm, hs, hf]

theorem successful_probe_closes_witness :
    (run trippedRegistry (Clock.frozen (seconds 10)) "k" alwaysSucceeds none).outcome
      = Except.ok 1 ∧
    ∃ m', (run trippedRegistry (Clock.frozen (seconds 10)) "k" alwaysSucceeds
        none).registry.command_to_metadata "k" = some m' ∧
      m'.state = CircuitBreakerState.OPEN ∧ m'.retries = 0 :=
  successful_probe_closes trippedRegistry (Clock.frozen (seconds 10)) "k" alwaysSucceeds none
    { state := CircuitBreakerState.CLOSED, max_retries := 2, retries := 3,
      wait_time := 10, last_triggered := 0 }
    1 (by decide) (Or.inl ⟨by decide, by decide⟩) (by rfl)

/-- C7: in every call in which the operation is invoked and throws, `retries`
afterwards is the previous value plus one (`max_retries` is kept).  If the new
value exceeds `max_retries`, the phase afterwards is BLOCKED (source `CLOSED`)
and `last_triggered` is the clock reading taken at the failure, whatever the
phase was.  If it does not and the call started in phase NORMAL (source `OPEN`),
phase and `last_triggered` are as before.  The previous values are those of the
entry `run` works on: the stored one, or the one just created for a new key. -/
theorem failure_counts_and_trips {E T : Type} (cb : CircuitBreaker) (clk : Clock)
    (key : String) (f : Unit → Except E T) (fallback : Option (Unit → Except E T)) (e : E)
    (hinv : Invocation.operation ∈ (run cb clk key f fallback).invoked)
    (hf : f () = Except.error e) :
    ∃ m', (run cb clk key f fallback).registry.command_to_metadata key = some m' ∧
      m'.retries = (cb.entry key).retries + 1 ∧
      m'.max_retries = (cb.entry key).max_retries ∧
      ((cb.entry key).max_retries < m'.retries →
        m'.state = CircuitBreakerState.CLOSED ∧ m'.last_triggered = clk.atFailure) ∧
      (¬ (cb.entry key).max_retries < m'.retries →
        (cb.entry key).state = CircuitBreakerState.OPEN →
        m'.state = CircuitBreakerState.OPEN ∧
        m'.last_triggered = (cb.entry key).last_triggered) := by
  cases hk : cb.command_to_metadata key with
  | none =>
    cases fallback <;>
      simp [run, attempt, CircuitBreaker.entry, CircuitBreaker.insert, CircuitBreaker.assign,
        hk, hf, initialMetadata]
  | some m =>
    by_cases hs : m.state = CircuitBreakerState.CLOSED
    · by_cases hc : clk.atEntry - m.last_triggered < m.wait_time * ticksPerSecond
      · cases fallback <;> simp [run, CircuitBreaker.insert, hk, hs, hc] at hinv
      · by_cases ht : m.max_retries < m.retries + 1 <;> cases fallback <;>
          simp [run, attempt, CircuitBreaker.entry, CircuitBreaker.insert,
            CircuitBreaker.assign, hk, hs, hc, hf, ht]
    · by_cases ht : m.max_retries < m.retries + 1 <;> cases fallback <;>
        simp [run, attempt, CircuitBreaker.entry, CircuitBreaker.insert,
          CircuitBreaker.assign, hk, hs, hf, ht]

theorem failure_counts_and_trips_witness :
    ∃ m', (run trippedRegistry { atEntry := seconds 11, atFailure := seconds 12 } "k"
        alwaysFails none).registry.command_to_metadata "k" = some m' ∧
      m'.retries = (trippedRegistry.entry "k").retries + 1 ∧
      m'.max_retries = (trippedRegistry.entry "k").max_retries ∧
      ((trippedRegistry.entry "k").max_retries < m'.retries →
        m'.state = CircuitBreakerState.CLOSED ∧ m'.last_triggered = seconds 12) ∧
      (¬ (trippedRegistry.entry "k").max_retries < m'.retries →
        (trippedRegistry.entry "k").state = CircuitBreakerState.OPEN →
        m'.state = CircuitBreakerState.OPEN ∧
        m'.last_triggered = (trippedRegistry.entry "k").last_triggered) :=
  failure_counts_and_trips trippedRegistry { atEntry := seconds 11, atFailure := seconds 12 }
    "k" alwaysFails none "failure inside f" (by decide) (by rfl)

/-- C8: in every call in which the operation is invoked: if it returns `v`, `run`
returns `v`; if it throws `e` and there is no fallback, `run` throws exactly `e`
(whether or not the call trips the breaker); if it throws and there is a
fallback, `run` ends exactly as the fallback does, with its value or with its
exception unchanged. -/
theorem run_outcome_of_operation {E T : Type} (cb : CircuitBreaker) (clk : Clock)
    (key : String) (f : Unit → Except E T) (fallback : Option (Unit → Except E T))
    (hinv : Invocation.operation ∈ (run cb clk key f fallback).invoked) :
    (∀ v, f () = Except.ok v → (run cb clk key f fallback).outcome = Except.ok v) ∧
    (∀ e, f () = Except.error e → fallback = none →
      (run cb clk key f fallback).outcome = Except.error (Thrown.rethrown e)) ∧
    (∀ e fb, f () = Except.error e → fallback = some fb →
      (run cb clk key f fallback).outcome = propagate (fb ()) ∧
      (∀ w, fb () = Except.ok w → (run cb clk key f fallback).outcome = Except.ok w) ∧
      (∀ d, fb () = Except.error d →
        (run cb clk key f fallback).outcome = Except.error (Thrown.rethrown d))) := by
  cases hk : cb.command_to_metadata key with
  | none =>
    cases fallback with
    | none =>
      cases hf : f () <;>
        simp [run, attempt, CircuitBreaker.insert, hk, hf, initialMetadata]
    | some fb =>
      cases hf : f () <;> cases hb : fb () <;>
        simp [run, attempt, CircuitBreaker.insert, hk, hf, hb, initialMetadata, propagate]
  | some m =>
    by_cases hs : m.state = CircuitBreakerState.CLOSED
    · by_cases hc : clk.atEntry - m.last_triggered < m.wait_time * ticksPerSecond
      · cases fallback <;> simp [run, CircuitBreaker.insert, hk, hs, hc] at hinv
      · cases fallback with
        | none =>
          cases hf : f () <;>
            simp [run, attempt, CircuitBreaker.insert, hk, hs, hc, hf]
        | some fb =>
          cases hf : f () <;> cases hb : fb () <;>
            simp [run, attempt, CircuitBreaker.insert, hk, hs, hc, hf, hb, propagate]
    · cases fallback with
      | none =>
        cases hf : f () <;>
          simp [run, attempt, CircuitBreaker.insert, hk, hs, hf]
      | some fb =>
        cases hf : f () <;> cases hb : fb () <;>
          simp [run, attempt, CircuitBreaker.insert, hk, hs, hf, hb, propagate]

theorem run_outcome_of_operation_witness :
    (∀ v, alwaysFails () = Except.ok v →
      (run (scenarioAfter 2) (Clock.frozen 0) "k" alwaysFails (some sentinelFallback)).outcome
        = Except.ok v) ∧
    (∀ e, alwaysFails () = Except.error e → some sentinelFallback = none →
      (run (scenarioAfter 2) (Clock.frozen 0) "k" alwaysFails (some sentinelFallback)).outcome
        = Except.error (Thrown.rethrown e)) ∧
    (∀ e fb, alwaysFails () = Except.error e → some sentinelFallback = some fb →
      (run (scenarioAfter 2) (Clock.frozen 0) "k" alwaysFails (some sentinelFallback)).outcome
        = propagate (fb ()) ∧
      (∀ w, fb () = Except.ok w →
        (run (scenarioAfter 2) (Clock.frozen 0) "k" alwaysFails (some sentinelFallback)).outcome
          = Except.ok w) ∧
      (∀ d, fb () = Except.error d →
        (run (scenarioAfter 2) (Clock.frozen 0) "k" alwaysFails (some sentinelFallback)).outcome
          = Except.error (Thrown.rethrown d))) :=
  run_outcome_of_operation (scenarioAfter 2) (Clock.frozen 0) "k" alwaysFails
    (some sentinelFallback) (by decide)

/-- C9: keys are independent.  For distinct keys `a` and `b`, a call of `run` on
`a`, whatever its outcome, leaves what is stored under `b` (an entry with all its
fields, or no entry) exactly as it was; hence any later call on `b` returns or
throws the same, invokes the same and leaves the same entry under `b` as it
would have without the call on `a`. -/
theorem keys_independent {E T : Type} (cb : CircuitBreaker) (clk : Clock) (a b : String)
    (f : Unit → Except E T) (fallback : Option (Unit → Except E T)) (hab : a ≠ b) :
    (run cb clk a f fallback).registry.command_to_metadata b = cb.command_to_metadata b ∧
    ∀ (clk' : Clock) (g : Unit → Except E T) (gfallback : Option (Unit → Except E T)),
      (run (run cb clk a f fallback).registry clk' b g gfallback).outcome
        = (run cb clk' b g gfallback).outcome ∧
      (run (run cb clk a f fallback).registry clk' b g gfallback).invoked
        = (run cb clk' b g gfallback).invoked ∧
      (run (run cb clk a f fallback).registry clk' b g gfallback).registry.command_to_metadata b
        = (run cb clk' b g gfallback).registry.command_to_metadata b := by
  have h := run_other_key cb clk a b f fallback hab
  exact ⟨h, fun clk' g gfallback => run_congr _ _ clk' b g gfallback h⟩

theorem keys_independent_witness :
    (run (scenarioAfter 2) (Clock.frozen 0) "k" alwaysFails none).registry.command_to_metadata
        "other" = (scenarioAfter 2).command_to_metadata "other" ∧
    ∀ (clk' : Clock) (g : Unit → Except String Int)
      (gfallback : Option (Unit → Except String Int)),
      (run (run (scenarioAfter 2) (Clock.frozen 0) "k" alwaysFails none).registry
          clk' "other" g gfallback).outcome
        = (run (scenarioAfter 2) clk' "other" g gfallback).outcome ∧
      (run (run (scenarioAfter 2) (Clock.frozen 0) "k" alwaysFails none).registry
          clk' "other" g gfallback).invoked
        = (run (scenarioAfter 2) clk' "other" g gfallback).invoked ∧
      (run (run (scenarioAfter 2) (Clock.frozen 0) "k" alwaysFails none).registry
          clk' "other" g gfallback).registry.command_to_metadata "other"
        = (run (scenarioAfter 2) clk' "other" g gfallback).registry.command_to_metadata "other" :=
  keys_independent (scenarioAfter 2) (Clock.frozen 0) "k" "other" alwaysFails none (by decide)

/-- C10: the concrete scenario.  On a new key with `max_retries = 2` and
`wait_time = 10s`, an operation that always throws and no fallback: calls 1, 2, 3
at t = 0 each invoke the operation and throw its exception, and the phase is
NORMAL (source `OPEN`) after calls 1 and 2 and BLOCKED (source `CLOSED`) after
call 3; call 4 at t = 1s throws `OpenCircuitException` and invokes nothing; call 5
at t = 11s invokes the operation, throws its exception and leaves the phase
BLOCKED with `retries = 4`. -/
theorem concrete_scenario :
    (scenarioAfter 0).command_to_metadata "k" = none ∧
    -- call 1
    ((modeY "k" 0).perform (scenarioAfter 0)).outcome
      = Except.error (Thrown.rethrown "failure inside f") ∧
    ((modeY "k" 0).perform (scenarioAfter 0)).invoked = [Invocation.operation] ∧
    (scenarioAfter 1).command_to_metadata "k"
      = some { state := CircuitBreakerState.OPEN, max_retries := 2, retries := 1,
               wait_time := 10, last_triggered := 0 } ∧
    -- call 2
    ((modeY "k" 0).perform (scenarioAfter 1)).outcome
      = Except.error (Thrown.rethrown "failure inside f") ∧
    ((modeY "k" 0).perform (scenarioAfter 1)).invoked = [Invocation.operation] ∧
    (scenarioAfter 2).command_to_metadata "k"
      = some { state := CircuitBreakerState.OPEN, max_retries := 2, retries := 2,
               wait_time := 10, last_triggered := 0 } ∧
    -- call 3
    ((modeY "k" 0).perform (scenarioAfter 2)).outcome
      = Except.error (Thrown.rethrown "failure inside f") ∧
    ((modeY "k" 0).perform (scenarioAfter 2)).invoked = [Invocation.operation] ∧
    (scenarioAfter 3).command_to_metadata "k"
      = some { state := CircuitBreakerState.CLOSED, max_retries := 2, retries := 3,
               wait_time := 10, last_triggered := 0 } ∧
    -- call 4
    ((modeY "k" 1).perform (scenarioAfter 3)).outcome
      = Except.error (Thrown.OpenCircuitException "k") ∧
    ((modeY "k" 1).perform (scenarioAfter 3)).invoked = [] ∧
    (scenarioAfter 4).command_to_metadata "k"
      = some { state := CircuitBreakerState.CLOSED, max_retries := 2, retries := 3,
               wait_time := 10, last_triggered := 0 } ∧
    -- call 5
    ((modeY "k" 11).perform (scenarioAfter 4)).outcome
      = Except.error (Thrown.rethrown "failure inside f") ∧
    ((modeY "k" 11).perform (scenarioAfter 4)).invoked = [Invocation.operation] ∧
    (scenarioAfter 5).command_to_metadata "k"
      = some { state := CircuitBreakerState.CLOSED, max_retries := 2, retries := 4,
               wait_time := 10, last_triggered := seconds 11 } := by
  decide

/-- C11: on a registry without an entry for `key`, whatever the clock shows, `run`
works on the newly created entry, which is in phase NORMAL (source `OPEN`) with
`retries = 0` and `last_triggered` at the epoch; the operation is invoked, first
and once, and the breaker's own `OpenCircuitException` is not thrown. -/
theorem first_call_is_normal {E T : Type} (cb : CircuitBreaker) (clk : Clock)
    (key : String) (f : Unit → Except E T) (fallback : Option (Unit → Except E T))
    (hfresh : cb.command_to_metadata key = none) :
    cb.entry key = initialMetadata ∧
    (cb.entry key).state = CircuitBreakerState.OPEN ∧
    (cb.entry key).retries = 0 ∧
    (run cb clk key f fallback).invoked.head? = some Invocation.operation ∧
    (run cb clk key f fallback).invoked.count Invocation.operation = 1 ∧
    (∀ k, (run cb clk key f fallback).outcome ≠ Except.error (Thrown.OpenCircuitException k)) := by
  have h0 : cb.entry key = initialMetadata := by
    simp [CircuitBreaker.entry, CircuitBreaker.insert, hfresh]
  refine ⟨h0, by rw [h0]; rfl, by rw [h0]; rfl, ?_⟩
  cases fallback with
  | none =>
    cases hf : f () <;>
      simp [run, attempt, CircuitBreaker.insert, hfresh, hf, initialMetadata]
  | some fb =>
    cases hf : f () <;> cases hb : fb () <;>
      simp [run, attempt, CircuitBreaker.insert, hfresh, hf, hb, initialMetadata, propagate]

theorem first_call_is_normal_witness :
    CircuitBreaker.empty.entry "k" = initialMetadata ∧
    (CircuitBreaker.empty.entry "k").state = CircuitBreakerState.OPEN ∧
    (CircuitBreaker.empty.entry "k").retries = 0 ∧
    (run CircuitBreaker.empty (Clock.frozen (seconds (-3))) "k" alwaysFails none).invoked.head?
      = some Invocation.operation ∧
    (run CircuitBreaker.empty (Clock.frozen (seconds (-3))) "k" alwaysFails none).invoked.count
      Invocation.operation = 1 ∧
    (∀ k, (run CircuitBreaker.empty (Clock.frozen (seconds (-3))) "k" alwaysFails none).outcome
      ≠ Except.error (Thrown.OpenCircuitException k)) :=
  first_call_is_normal CircuitBreaker.empty (Clock.frozen (seconds (-3))) "k" alwaysFails none
    (by rfl)

/-- C12: registry entries are created lazily, once, and never removed.  After any
call of `run` on `key` the registry has an entry for `key`; what is stored under
every other key is as before (no entry is added or removed there), so every key
that had an entry still has one; and when `key` already has an entry `m`, the
insertion leaves the registry alone and `run` works on `m` itself: line 45 and
everything after it is evaluated on the stored entry. -/
theorem entries_lazy_and_permanent {E T : Type} (cb : CircuitBreaker) (clk : Clock)
    (key : String) (f : Unit → Except E T) (fallback : Option (Unit → Except E T)) :
    (∃ m', (run cb clk key f fallback).registry.command_to_metadata key = some m') ∧
    (∀ k, k ≠ key →
      (run cb clk key f fallback).registry.command_to_metadata k = cb.command_to_metadata k) ∧
    (∀ k m, cb.command_to_metadata k = some m →
      ∃ m', (run cb clk key f fallback).registry.command_to_metadata k = some m') ∧
    (∀ m, cb.command_to_metadata key = some m →
      cb.insert key initialMetadata = (cb, m) ∧
      (m.state ≠ CircuitBreakerState.CLOSED →
        run cb clk key f fallback = attempt cb clk key m f fallback) ∧
      (m.state = CircuitBreakerState.CLOSED → ¬ withinCoolDown m clk.atEntry →
        run cb clk key f fallback
          = attempt cb clk key
              { m with last_triggered := clk.atEntry, state := CircuitBreakerState.SEMIOPEN }
              f fallback) ∧
      (m.state = CircuitBreakerState.CLOSED → withinCoolDown m clk.atEntry →
        (run cb clk key f fallback).registry = cb)) := by
  have hexists : ∃ m', (run cb clk key f fallback).registry.command_to_metadata key = some m' := by
    cases hk : cb.command_to_metadata key with
    | none =>
      cases fallback <;> cases hf : f () <;>
        simp [run, attempt, CircuitBreaker.insert, CircuitBreaker.assign, hk, hf,
          initialMetadata]
    | some m =>
      by_cases hs : m.state = CircuitBreakerState.CLOSED
      · by_cases hc : clk.atEntry - m.last_triggered < m.wait_time * ticksPerSecond
        · cases fallback <;> simp [run, CircuitBreaker.insert, hk, hs, hc]
        · cases fallback <;> cases hf : f () <;>
            simp [run, attempt, CircuitBreaker.insert, CircuitBreaker.assign, hk, hs, hc, hf]
      · cases fallback <;> cases hf : f () <;>
          simp [run, attempt, CircuitBreaker.insert, CircuitBreaker.assign, hk, hs, hf]
  have hother : ∀ k, k ≠ key →
      (run cb clk key f fallback).registry.command_to_metadata k = cb.command_to_metadata k :=
    fun k hk => run_other_key cb clk key k f fallback (fun h => hk h.symm)
  refine ⟨hexists, hother, ?_, ?_⟩
  · intro k m hm
    by_cases hk : k = key
    · subst hk; exact hexists
    · exact ⟨m, by rw [hother k hk]; exact hm⟩
  · intro m hm
    unfold withinCoolDown
    refine ⟨by simp [CircuitBreaker.insert, hm], ?_, ?_, ?_⟩
    · intro hs
      simp [run, CircuitBreaker.insert, hm, hs]
    · intro hs hc
      simp [run, CircuitBreaker.insert, hm, hs, hc]
    · intro hs hc
      cases fallback <;> simp [run, CircuitBreaker.insert, hm, hs, hc]

/-- C13: in every call of `run` the operation is invoked at most once.  It is not
invoked exactly when the entry `run` works on is BLOCKED (source `CLOSED`) and
the cool-down has not elapsed at the clock reading, and it is invoked exactly
once in every other case, with or without a fallback and whether it returns or
throws. -/
theorem operation_invoked_at_most_once {E T : Type} (cb : CircuitBreaker) (clk : Clock)
    (key : String) (f : Unit → Except E T) (fallback : Option (Unit → Except E T)) :
    (run cb clk key f fallback).invoked.count Invocation.operation ≤ 1 ∧
    ((run cb clk key f fallback).invoked.count Invocation.operation = 0 ↔
      ((cb.entry key).state = CircuitBreakerState.CLOSED ∧
        withinCoolDown (cb.entry key) clk.atEntry)) ∧
    (¬ ((cb.entry key).state = CircuitBreakerState.CLOSED ∧
        withinCoolDown (cb.entry key) clk.atEntry) →
      (run cb clk key f fallback).invoked.count Invocation.operation = 1) := by
  unfold withinCoolDown
  cases hk : cb.command_to_metadata key with
  | none =>
    cases fallback <;> cases hf : f () <;>
      simp [run, attempt, CircuitBreaker.entry, CircuitBreaker.insert, hk, hf, initialMetadata]
  | some m =>
    by_cases hs : m.state = CircuitBreakerState.CLOSED
    · by_cases hc : clk.atEntry - m.last_triggered < m.wait_time * ticksPerSecond
      · cases fallback <;>
          simp [run, CircuitBreaker.entry, CircuitBreaker.insert, hk, hs, hc]
      · cases fallback <;> cases hf : f () <;>
          simp [run, attempt, CircuitBreaker.entry, CircuitBreaker.insert, hk, hs, hc, hf]
    · cases fallback <;> cases hf : f () <;>
        simp [run, attempt, CircuitBreaker.entry, CircuitBreaker.insert, hk, hs, hf]

/-- The history of a call ends in the phase that `run` leaves in the registry. -/
theorem phaseHistory_getLast {E T : Type} (cb : CircuitBreaker) (clk : Clock)
    (key : String) (f : Unit → Except E T) (fallback : Option (Unit → Except E T)) :
    (phaseHistory cb clk key f).getLast?
      = some ((run cb clk key f fallback).registry.entry key).state := by
  cases hk : cb.command_to_metadata key with
  | none =>
    cases fallback <;> cases hf : f () <;>
      simp [phaseHistory, stateWrites, attemptStateWrites, run, attempt, CircuitBreaker.entry,
        CircuitBreaker.insert, CircuitBreaker.assign, hk, hf, initialMetadata,
        List.getLast?_cons_cons]
  | some m =>
    by_cases hs : m.state = CircuitBreakerState.CLOSED
    · by_cases hc : clk.atEntry - m.last_triggered < m.wait_time * ticksPerSecond
      · cases fallback <;>
          simp [phaseHistory, stateWrites, run, CircuitBreaker.entry, CircuitBreaker.insert,
            hk, hs, hc]
      · by_cases ht : m.max_retries < m.retries + 1 <;> cases fallback <;> cases hf : f () <;>
          simp [phaseHistory, stateWrites, attemptStateWrites, run, attempt,
            CircuitBreaker.entry, CircuitBreaker.insert, CircuitBreaker.assign, hk, hs, hc, hf,
            ht, List.getLast?_cons_cons]
    · by_cases ht : m.max_retries < m.retries + 1 <;>
      by_cases hp : m.state = CircuitBreakerState.SEMIOPEN <;>
      cases fallback <;> cases hf : f () <;>
        simp [phaseHistory, stateWrites, attemptStateWrites, run, attempt,
          CircuitBreaker.entry, CircuitBreaker.insert, CircuitBreaker.assign, hk, hs, hf,
          ht, hp, List.getLast?_cons_cons]

/-- Against C14 as stated: a call admitted out of BLOCKED changes the phase twice.
From the tripped registry, eleven seconds after the trip, a succeeding operation
takes the entry from `CLOSED` to `SEMIOPEN` (line 56) and on to `OPEN` (line 62);
a failing one takes it from `CLOSED` to `SEMIOPEN` and back to `CLOSED` (line 73). -/
theorem two_phase_changes_in_one_call :
    phaseHistory trippedRegistry (Clock.frozen (seconds 11)) "k" alwaysSucceeds
      = [CircuitBreakerState.CLOSED, CircuitBreakerState.SEMIOPEN, CircuitBreakerState.OPEN] ∧
    ¬ phaseChanges (phaseHistory trippedRegistry (Clock.frozen (seconds 11)) "k" alwaysSucceeds)
      ≤ 1 ∧
    phaseHistory trippedRegistry (Clock.frozen (seconds 11)) "k" alwaysFails
      = [CircuitBreakerState.CLOSED, CircuitBreakerState.SEMIOPEN, CircuitBreakerState.CLOSED] ∧
    ¬ phaseChanges (phaseHistory trippedRegistry (Clock.frozen (seconds 11)) "k" alwaysFails)
      ≤ 1 := by
  decide

/-- C14, amended: a call of `run` changes the phase of its key at most twice.  The
history of phases ends in the phase `run` leaves in the registry.  A call that is
rejected, or that starts in phase NORMAL or PROBING, changes the phase at most
once.  A call that starts BLOCKED (source `CLOSED`) with the cool-down elapsed
first changes it to PROBING (source `SEMIOPEN`) and then at most once more: to
NORMAL when the operation returns, back to BLOCKED when it throws and the new
`retries` exceeds `max_retries`. -/
theorem phase_changes_per_call {E T : Type} (cb : CircuitBreaker) (clk : Clock)
    (key : String) (f : Unit → Except E T) (fallback : Option (Unit → Except E T)) :
    (phaseHistory cb clk key f).getLast?
      = some ((run cb clk key f fallback).registry.entry key).state ∧
    phaseChanges (phaseHistory cb clk key f) ≤ 2 ∧
    (¬ ((cb.entry key).state = CircuitBreakerState.CLOSED ∧
        ¬ withinCoolDown (cb.entry key) clk.atEntry) →
      phaseChanges (phaseHistory cb clk key f) ≤ 1) ∧
    ((cb.entry key).state = CircuitBreakerState.CLOSED →
      ¬ withinCoolDown (cb.entry key) clk.atEntry →
      ∃ rest, phaseHistory cb clk key f
          = CircuitBreakerState.CLOSED :: CircuitBreakerState.SEMIOPEN :: rest ∧
        rest.length ≤ 1 ∧
        ((∃ v, f () = Except.ok v) → rest = [CircuitBreakerState.OPEN]) ∧
        (∀ e, f () = Except.error e →
          (cb.entry key).max_retries < (cb.entry key).retries + 1 →
          rest = [CircuitBreakerState.CLOSED]) ∧
        (∀ e, f () = Except.error e →
          ¬ (cb.entry key).max_retries < (cb.entry key).retries + 1 →
          rest = [])) := by
  refine ⟨phaseHistory_getLast cb clk key f fallback, ?_⟩
  unfold withinCoolDown
  cases hk : cb.command_to_metadata key with
  | none =>
    cases hf : f () <;>
      simp [phaseHistory, stateWrites, attemptStateWrites, phaseChanges, CircuitBreaker.entry,
        CircuitBreaker.insert, hk, hf, initialMetadata]
  | some m =>
    by_cases hs : m.state = CircuitBreakerState.CLOSED
    · by_cases hc : clk.atEntry - m.last_triggered < m.wait_time * ticksPerSecond
      · simp [phaseHistory, stateWrites, phaseChanges, CircuitBreaker.entry,
          CircuitBreaker.insert, hk, hs, hc]
      · by_cases ht : m.max_retries < m.retries + 1 <;> cases hf : f () <;>
          simp [phaseHistory, stateWrites, attemptStateWrites, phaseChanges,
            CircuitBreaker.entry, CircuitBreaker.insert, hk, hs, hc, hf, ht]
    · by_cases ht : m.max_retries < m.retries + 1 <;>
      by_cases hp : m.state = CircuitBreakerState.SEMIOPEN <;>
      cases hf : f () <;>
        simp [phaseHistory, stateWrites, attemptStateWrites, phaseChanges,
          CircuitBreaker.entry, CircuitBreaker.insert, hk, hs, hf, ht, hp]

/-- C15: the fallback is never a failure-counted call.  The registry after a call
is the same for any two operations that both return or both throw and for any two
choices of fallback (none, one that returns, one that throws): it depends only on
the registry before, the clock readings and whether the operation returned or
threw.  In particular, when the operation is invoked and throws and the fallback
throws `d` as well, `retries` goes up by exactly one and `run` throws `d`; and
when a call is rejected (BLOCKED inside the cool-down) and its fallback throws
`d`, the registry is unchanged and `run` throws `d`. -/
theorem fallback_not_counted {E T : Type} (cb : CircuitBreaker) (clk : Clock)
    (key : String) (f : Unit → Except E T) (fallback : Option (Unit → Except E T)) :
    (∀ (f' : Unit → Except E T) (fallback' : Option (Unit → Except E T)),
      ((∃ v, f () = Except.ok v) ↔ (∃ v', f' () = Except.ok v')) →
      (run cb clk key f fallback).registry = (run cb clk key f' fallback').registry) ∧
    (∀ fb e d, fallback = some fb → f () = Except.error e → fb () = Except.error d →
      Invocation.operation ∈ (run cb clk key f fallback).invoked →
      ((run cb clk key f fallback).registry.entry key).retries = (cb.entry key).retries + 1 ∧
      (run cb clk key f fallback).outcome = Except.error (Thrown.rethrown d)) ∧
    (∀ fb d m, fallback = some fb → fb () = Except.error d →
      cb.command_to_metadata key = some m → m.state = CircuitBreakerState.CLOSED →
      withinCoolDown m clk.atEntry →
      (run cb clk key f fallback).registry = cb ∧
      (run cb clk key f fallback).registry.command_to_metadata key = some m ∧
      (run cb clk key f fallback).outcome = Except.error (Thrown.rethrown d)) := by
  unfold withinCoolDown
  refine ⟨?_, ?_, ?_⟩
  · intro f' fallback' hsame
    cases hk : cb.command_to_metadata key with
    | none =>
      cases hf : f () <;> cases hf' : f' () <;> cases fallback <;> cases fallback' <;>
        simp [run, attempt, CircuitBreaker.insert, hk, hf, hf', initialMetadata] <;>
        simp [hf, hf'] at hsame
    | some m =>
      by_cases hs : m.state = CircuitBreakerState.CLOSED
      · by_cases hc : clk.atEntry - m.last_triggered < m.wait_time * ticksPerSecond
        · cases fallback <;> cases fallback' <;>
            simp [run, CircuitBreaker.insert, hk, hs, hc]
        · cases hf : f () <;> cases hf' : f' () <;> cases fallback <;> cases fallback' <;>
            simp [run, attempt, CircuitBreaker.insert, hk, hs, hc, hf, hf'] <;>
            simp [hf, hf'] at hsame
      · cases hf : f () <;> cases hf' : f' () <;> cases fallback <;> cases fallback' <;>
          simp [run, attempt, CircuitBreaker.insert, hk, hs, hf, hf'] <;>
          simp [hf, hf'] at hsame
  · intro fb e d hfb hf hd hinv
    subst hfb
    cases hk : cb.command_to_metadata key with
    | none =>
      simp [run, attempt, CircuitBreaker.entry, CircuitBreaker.insert, CircuitBreaker.assign,
        hk, hf, hd, initialMetadata, propagate]
    | some m =>
      by_cases hs : m.state = CircuitBreakerState.CLOSED
      · by_cases hc : clk.atEntry - m.last_triggered < m.wait_time * ticksPerSecond
        · simp [run, CircuitBreaker.insert, hk, hs, hc] at hinv
        · by_cases ht : m.max_retries < m.retries + 1 <;>
            simp [run, attempt, CircuitBreaker.entry, CircuitBreaker.insert,
              CircuitBreaker.assign, hk, hs, hc, hf, hd, ht, propagate]
      · by_cases ht : m.max_retries < m.retries + 1 <;>
          simp [run, attempt, CircuitBreaker.entry, CircuitBreaker.insert,
            CircuitBreaker.assign, hk, hs, hf, hd, ht, propagate]
  · intro fb d m hfb hd hm hs hc
    subst hfb
    simp [run, CircuitBreaker.insert, hm, hs, hc, hd, propagate]

/-- C16: `retries` is reset only by a successful probe.  After a call of `run`
the `retries` of the key is the old value, the old value plus one, or 0; when it
is neither of the first two, the call started BLOCKED (source `CLOSED`) with the
cool-down elapsed or started PROBING (source `SEMIOPEN`), and its operation
returned.  An operation that returns on a key in phase NORMAL (source `OPEN`)
leaves the whole entry as it was; such a probe that returns does set `retries`
to 0; and a call admitted out of BLOCKED whose operation throws ends with the
old `retries` plus one, so entering PROBING does not reset the counter.  Old
values are those of the entry `run` works on. -/
theorem retries_reset_only_by_probe {E T : Type} (cb : CircuitBreaker) (clk : Clock)
    (key : String) (f : Unit → Except E T) (fallback : Option (Unit → Except E T)) :
    (((run cb clk key f fallback).registry.entry key).retries = (cb.entry key).retries ∨
      ((run cb clk key f fallback).registry.entry key).retries = (cb.entry key).retries + 1 ∨
      ((run cb clk key f fallback).registry.entry key).retries = 0) ∧
    (((run cb clk key f fallback).registry.entry key).retries ≠ (cb.entry key).retries →
      ((run cb clk key f fallback).registry.entry key).retries ≠ (cb.entry key).retries + 1 →
      (((cb.entry key).state = CircuitBreakerState.CLOSED ∧
          ¬ withinCoolDown (cb.entry key) clk.atEntry) ∨
        (cb.entry key).state = CircuitBreakerState.SEMIOPEN) ∧
      ∃ v, f () = Except.ok v) ∧
    ((cb.entry key).state = CircuitBreakerState.OPEN → (∃ v, f () = Except.ok v) →
      (run cb clk key f fallback).registry.entry key = cb.entry key) ∧
    ((((cb.entry key).state = CircuitBreakerState.CLOSED ∧
          ¬ withinCoolDown (cb.entry key) clk.atEntry) ∨
        (cb.entry key).state = CircuitBreakerState.SEMIOPEN) → (∃ v, f () = Except.ok v) →
      ((run cb clk key f fallback).registry.entry key).retries = 0) ∧
    ((cb.entry key).state = CircuitBreakerState.CLOSED →
      ¬ withinCoolDown (cb.entry key) clk.atEntry → (∃ e, f () = Except.error e) →
      ((run cb clk key f fallback).registry.entry key).retries = (cb.entry key).retries + 1) := by
  unfold withinCoolDown
  cases hk : cb.command_to_metadata key with
  | none =>
    cases fallback <;> cases hf : f () <;>
      simp [run, attempt, CircuitBreaker.entry, CircuitBreaker.insert, CircuitBreaker.assign,
        hk, hf, initialMetadata]
  | some m =>
    by_cases hs : m.state = CircuitBreakerState.CLOSED
    · by_cases hc : clk.atEntry - m.last_triggered < m.wait_time * ticksPerSecond
      · cases fallback <;>
          simp [run, CircuitBreaker.entry, CircuitBreaker.insert, hk, hs, hc]
      · by_cases ht : m.max_retries < m.retries + 1 <;> cases fallback <;> cases hf : f () <;>
          simp [run, attempt, CircuitBreaker.entry, CircuitBreaker.insert,
            CircuitBreaker.assign, hk, hs, hc, hf, ht]
    · by_cases ht : m.max_retries < m.retries + 1 <;>
      by_cases hp : m.state = CircuitBreakerState.SEMIOPEN <;>
      cases fallback <;> cases hf : f () <;>
        simp [run, attempt, CircuitBreaker.entry, CircuitBreaker.insert,
          CircuitBreaker.assign, hk, hs, hf, ht, hp]

/-- One call of `run` on a key whose stored entry (if any) is settled leaves a
settled entry under that key. -/
theorem run_preserves_settled {E T : Type} (cb : CircuitBreaker) (clk : Clock)
    (key : String) (f : Unit → Except E T) (fallback : Option (Unit → Except E T))
    (hcb : ∀ m, cb.command_to_metadata key = some m → m.Settled) :
    ∀ m', (run cb clk key f fallback).registry.command_to_metadata key = some m' →
      m'.Settled := by
  cases hk : cb.command_to_metadata key with
  | none =>
    cases fallback <;> cases hf : f () <;>
      simp [run, attempt, CircuitBreaker.insert, CircuitBreaker.assign, hk, hf,
        initialMetadata, CircuitBreakerMetadata.Settled]
  | some m =>
    obtain ⟨hmax, hwait, hphase⟩ := hcb m hk
    rcases hphase with ⟨hs, h0, h2⟩ | ⟨hs, h2⟩
    · have hnc : ¬ m.state = CircuitBreakerState.CLOSED := by rw [hs]; decide
      have hnp : ¬ m.state = CircuitBreakerState.SEMIOPEN := by rw [hs]; decide
      cases hf : f () with
      | ok v =>
        cases fallback <;>
          simp [run, attempt, CircuitBreaker.insert, CircuitBreaker.assign, hk, hf, hnc, hnp,
            CircuitBreakerMetadata.Settled, hmax, hwait, hs, h0, h2]
      | error e =>
        by_cases ht : m.max_retries < m.retries + 1
        · have h3 : (2 : Int) < m.retries + 1 := by rw [hmax] at ht; exact ht
          cases fallback <;>
            simp [run, attempt, CircuitBreaker.insert, CircuitBreaker.assign, hk, hf, hnc,
              CircuitBreakerMetadata.Settled, hmax, hwait, ht, h3]
        · have h3 : m.retries + 1 ≤ 2 := by rw [hmax] at ht; exact not_lt.mp ht
          have h4 : (0 : Int) ≤ m.retries + 1 := by omega
          have h5 : ¬ (2 : Int) < m.retries + 1 := by omega
          cases fallback <;>
            simp [run, attempt, CircuitBreaker.insert, CircuitBreaker.assign, hk, hf, hnc,
              CircuitBreakerMetadata.Settled, hmax, hwait, hs, h3, h4, h5]
    · by_cases hc : clk.atEntry - m.last_triggered < 10 * ticksPerSecond
      · cases fallback <;>
          simp [run, CircuitBreaker.insert, hk, hs, hc, CircuitBreakerMetadata.Settled, hmax,
            hwait, h2]
      · cases hf : f () with
        | ok v =>
          cases fallback <;>
            simp [run, attempt, CircuitBreaker.insert, CircuitBreaker.assign, hk, hf, hs, hc,
              CircuitBreakerMetadata.Settled, hmax, hwait]
        | error e =>
          have ht : m.max_retries < m.retries + 1 := by rw [hmax]; omega
          have h3 : (2 : Int) < m.retries + 1 := by omega
          cases fallback <;>
            simp [run, attempt, CircuitBreaker.insert, CircuitBreaker.assign, hk, hf, hs, hc,
              CircuitBreakerMetadata.Settled, hmax, hwait, ht, h3]

/-- Every entry of a reachable registry is settled. -/
theorem reachable_settled (cb : CircuitBreaker) (h : Reachable cb) :
    ∀ key m, cb.command_to_metadata key = some m → m.Settled := by
  induction h with
  | empty =>
    intro key m hm
    simp [CircuitBreaker.empty] at hm
  | step cb clk a f fallback _ ih =>
    intro key m hm
    by_cases hka : a = key
    · subst hka
      exact run_preserves_settled cb clk a f fallback (ih a) m hm
    · rw [run_other_key cb clk a key f fallback hka] at hm
      exact ih key m hm

/-- Performing calls one after the other from a reachable registry gives a
reachable registry. -/
theorem reachable_runAll {E T : Type} (cs : List (Call E T)) :
    ∀ cb : CircuitBreaker, Reachable cb → Reachable (runAll cb cs) := by
  induction cs with
  | nil => intro cb h; exact h
  | cons c cs ih =>
    intro cb h
    exact ih _ (Reachable.step cb c.clk c.key c.f c.fallback h)

/-- After a call of `run` there is an entry under its key. -/
theorem run_has_entry {E T : Type} (cb : CircuitBreaker) (clk : Clock)
    (key : String) (f : Unit → Except E T) (fallback : Option (Unit → Except E T)) :
    ∃ m', (run cb clk key f fallback).registry.command_to_metadata key = some m' := by
  cases hk : cb.command_to_metadata key with
  | none =>
    cases fallback <;> cases hf : f () <;>
      simp [run, attempt, CircuitBreaker.insert, CircuitBreaker.assign, hk, hf,
        initialMetadata]
  | some m =>
    by_cases hs : m.state = CircuitBreakerState.CLOSED
    · by_cases hc : clk.atEntry - m.last_triggered < m.wait_time * ticksPerSecond
      · cases fallback <;> simp [run, CircuitBreaker.insert, hk, hs, hc]
      · cases fallback <;> cases hf : f () <;>
          simp [run, attempt, CircuitBreaker.insert, CircuitBreaker.assign, hk, hs, hc, hf]
    · cases fallback <;> cases hf : f () <;>
        simp [run, attempt, CircuitBreaker.insert, CircuitBreaker.assign, hk, hs, hf]

/-- No call of `run` changes `max_retries` or `wait_time` of any key's entry. -/
theorem run_keeps_policy {E T : Type} (cb : CircuitBreaker) (clk : Clock)
    (key : String) (f : Unit → Except E T) (fallback : Option (Unit → Except E T))
    (k : String) :
    ((run cb clk key f fallback).registry.entry k).max_retries = (cb.entry k).max_retries ∧
    ((run cb clk key f fallback).registry.entry k).wait_time = (cb.entry k).wait_time := by
  by_cases hkk : key = k
  · subst hkk
    cases hk : cb.command_to_metadata key with
    | none =>
      cases fallback <;> cases hf : f () <;>
        simp [run, attempt, CircuitBreaker.entry, CircuitBreaker.insert, CircuitBreaker.assign,
          hk, hf, initialMetadata]
    | some m =>
      by_cases hs : m.state = CircuitBreakerState.CLOSED
      · by_cases hc : clk.atEntry - m.last_triggered < m.wait_time * ticksPerSecond
        · cases fallback <;>
            simp [run, CircuitBreaker.entry, CircuitBreaker.insert, hk, hs, hc]
        · by_cases ht : m.max_retries < m.retries + 1 <;> cases fallback <;>
          cases hf : f () <;>
            simp [run, attempt, CircuitBreaker.entry, CircuitBreaker.insert,
              CircuitBreaker.assign, hk, hs, hc, hf, ht]
      · by_cases ht : m.max_retries < m.retries + 1 <;>
        by_cases hp : m.state = CircuitBreakerState.SEMIOPEN <;>
        cases fallback <;> cases hf : f () <;>
          simp [run, attempt, CircuitBreaker.entry, CircuitBreaker.insert,
            CircuitBreaker.assign, hk, hs, hf, ht, hp]
  · rw [entry_congr _ _ k (run_other_key cb clk key k f fallback hkk)]
    exact ⟨rfl, rfl⟩

/-- C17: the policy is fixed per key.  An entry is created with `max_retries = 2`
and `wait_time = 10` seconds; no call of `run`, on any registry, changes either
field of any key's entry; hence in every registry reachable from the empty one
every entry has `max_retries = 2` and `wait_time = 10` seconds. -/
theorem policy_fixed (cb : CircuitBreaker) (h : Reachable cb) :
    (initialMetadata.max_retries = 2 ∧ initialMetadata.wait_time = 10) ∧
    (∀ (E T : Type) (cb' : CircuitBreaker) (clk : Clock) (key : String)
        (f : Unit → Except E T) (fallback : Option (Unit → Except E T)) (k : String),
      ((run cb' clk key f fallback).registry.entry k).max_retries = (cb'.entry k).max_retries ∧
      ((run cb' clk key f fallback).registry.entry k).wait_time = (cb'.entry k).wait_time) ∧
    (∀ key m, cb.command_to_metadata key = some m →
      m.max_retries = 2 ∧ m.wait_time = 10 ∧ m.wait_time * ticksPerSecond = seconds 10) := by
  refine ⟨⟨rfl, rfl⟩, fun E T cb' clk key f fallback k => run_keeps_policy cb' clk key f fallback k,
    ?_⟩
  intro key m hm
  obtain ⟨hmax, hwait, _⟩ := reachable_settled cb h key m hm
  exact ⟨hmax, hwait, by rw [hwait]; rfl⟩

theorem policy_fixed_witness :
    (initialMetadata.max_retries = 2 ∧ initialMetadata.wait_time = 10) ∧
    (∀ (E T : Type) (cb' : CircuitBreaker) (clk : Clock) (key : String)
        (f : Unit → Except E T) (fallback : Option (Unit → Except E T)) (k : String),
      ((run cb' clk key f fallback).registry.entry k).max_retries = (cb'.entry k).max_retries ∧
      ((run cb' clk key f fallback).registry.entry k).wait_time = (cb'.entry k).wait_time) ∧
    (∀ key m, (scenarioAfter 5).command_to_metadata key = some m →
      m.max_retries = 2 ∧ m.wait_time = 10 ∧ m.wait_time * ticksPerSecond = seconds 10) :=
  policy_fixed (scenarioAfter 5) (reachable_runAll (scenario.take 5) _ Reachable.empty)

/-- C18: in every registry reachable from the empty one by calls of `run`, with
`retries` an unbounded integer, every entry satisfies: phase NORMAL (source
`OPEN`) implies `0 <= retries <= max_retries`, and phase BLOCKED (source
`CLOSED`) implies `retries > max_retries`. -/
theorem reachable_counter_bounds (cb : CircuitBreaker) (h : Reachable cb)
    (key : String) (m : CircuitBreakerMetadata)
    (hm : cb.command_to_metadata key = some m) :
    (m.state = CircuitBreakerState.OPEN → 0 ≤ m.retries ∧ m.retries ≤ m.max_retries) ∧
    (m.state = CircuitBreakerState.CLOSED → m.max_retries < m.retries) := by
  obtain ⟨hmax, _, hphase⟩ := reachable_settled cb h key m hm
  rw [hmax]
  rcases hphase with ⟨hs, h0, h2⟩ | ⟨hs, h2⟩
  · exact ⟨fun _ => ⟨h0, h2⟩, fun hc => by rw [hs] at hc; cases hc⟩
  · exact ⟨fun ho => (by rw [hs] at ho; cases ho), fun _ => h2⟩

theorem reachable_counter_bounds_witness :
    (scenarioAfter 3).command_to_metadata "k"
      = some { state := CircuitBreakerState.CLOSED, max_retries := 2, retries := 3,
               wait_time := 10, last_triggered := 0 } ∧
    (CircuitBreakerState.CLOSED = CircuitBreakerState.OPEN →
      (0 : Int) ≤ 3 ∧ (3 : Int) ≤ 2) ∧
    (CircuitBreakerState.CLOSED = CircuitBreakerState.CLOSED → (2 : Int) < 3) :=
  ⟨by decide,
    reachable_counter_bounds (scenarioAfter 3)
      (reachable_runAll (scenario.take 3) _ Reachable.empty) "k"
      { state := CircuitBreakerState.CLOSED, max_retries := 2, retries := 3,
        wait_time := 10, last_triggered := 0 }
      (by decide)⟩

/-- C19: PROBING never persists between calls.  In every registry reachable from
the empty one no entry is in phase PROBING (source `SEMIOPEN`): each is NORMAL or
BLOCKED; so after any further call of `run`, however it ends, the entry of its
key is NORMAL or BLOCKED.  A probe (a call on a BLOCKED key with the cool-down
elapsed) whose operation throws ends BLOCKED in that same call, with `retries`
one higher and `last_triggered` set to the reading taken at the failure; a probe
whose operation returns ends NORMAL. -/
theorem probing_never_persists (cb : CircuitBreaker) (h : Reachable cb) :
    (∀ key m, cb.command_to_metadata key = some m →
      m.state ≠ CircuitBreakerState.SEMIOPEN ∧
      (m.state = CircuitBreakerState.OPEN ∨ m.state = CircuitBreakerState.CLOSED)) ∧
    (∀ (E T : Type) (clk : Clock) (key : String) (f : Unit → Except E T)
        (fallback : Option (Unit → Except E T)),
      ∃ m', (run cb clk key f fallback).registry.command_to_metadata key = some m' ∧
        m'.state ≠ CircuitBreakerState.SEMIOPEN ∧
        (m'.state = CircuitBreakerState.OPEN ∨ m'.state = CircuitBreakerState.CLOSED)) ∧
    (∀ (E T : Type) (clk : Clock) (key : String) (f : Unit → Except E T)
        (fallback : Option (Unit → Except E T)) (m : CircuitBreakerMetadata),
      cb.command_to_metadata key = some m → m.state = CircuitBreakerState.CLOSED →
      ¬ withinCoolDown m clk.atEntry →
      (∀ e, f () = Except.error e →
        (run cb clk key f fallback).registry.command_to_metadata key
          = some { m with
                   retries := m.retries + 1
                   last_triggered := clk.atFailure
                   state := CircuitBreakerState.CLOSED }) ∧
      (∀ v, f () = Except.ok v →
        ∃ m', (run cb clk key f fallback).registry.command_to_metadata key = some m' ∧
          m'.state = CircuitBreakerState.OPEN)) := by
  have hphase : ∀ (c : CircuitBreaker), Reachable c → ∀ key m,
      c.command_to_metadata key = some m →
      m.state ≠ CircuitBreakerState.SEMIOPEN ∧
      (m.state = CircuitBreakerState.OPEN ∨ m.state = CircuitBreakerState.CLOSED) := by
    intro c hc key m hm
    obtain ⟨_, _, hp⟩ := reachable_settled c hc key m hm
    rcases hp with ⟨hs, _, _⟩ | ⟨hs, _⟩
    · exact ⟨by rw [hs]; decide, Or.inl hs⟩
    · exact ⟨by rw [hs]; decide, Or.inr hs⟩
  refine ⟨hphase cb h, ?_, ?_⟩
  · intro E T clk key f fallback
    obtain ⟨m', hm'⟩ := run_has_entry cb clk key f fallback
    exact ⟨m', hm', hphase _ (Reachable.step cb clk key f fallback h) key m' hm'⟩
  · intro E T clk key f fallback m hm hs hc
    unfold withinCoolDown at hc
    obtain ⟨hmax, _, hp⟩ := reachable_settled cb h key m hm
    have h2 : (2 : Int) < m.retries := by
      rcases hp with ⟨ho, _, _⟩ | ⟨_, h2⟩
      · rw [hs] at ho; cases ho
      · exact h2
    have ht : m.max_retries < m.retries + 1 := by rw [hmax]; omega
    refine ⟨?_, ?_⟩
    · intro e he
      cases fallback <;>
        simp [run, attempt, CircuitBreaker.insert, CircuitBreaker.assign, hm, hs, hc, he, ht]
    · intro v hv
      cases fallback <;>
        simp [run, attempt, CircuitBreaker.insert, CircuitBreaker.assign, hm, hs, hc, hv]

theorem probing_never_persists_witness :
    (∀ key m, (scenarioAfter 3).command_to_metadata key = some m →
      m.state ≠ CircuitBreakerState.SEMIOPEN ∧
      (m.state = CircuitBreakerState.OPEN ∨ m.state = CircuitBreakerState.CLOSED)) ∧
    (∀ (E T : Type) (clk : Clock) (key : String) (f : Unit → Except E T)
        (fallback : Option (Unit → Except E T)),
      ∃ m', (run (scenarioAfter 3) clk key f fallback).registry.command_to_metadata key
          = some m' ∧
        m'.state ≠ CircuitBreakerState.SEMIOPEN ∧
        (m'.state = CircuitBreakerState.OPEN ∨ m'.state = CircuitBreakerState.CLOSED)) ∧
    (∀ (E T : Type) (clk : Clock) (key : String) (f : Unit → Except E T)
        (fallback : Option (Unit → Except E T)) (m : CircuitBreakerMetadata),
      (scenarioAfter 3).command_to_metadata key = some m →
      m.state = CircuitBreakerState.CLOSED →
      ¬ withinCoolDown m clk.atEntry →
      (∀ e, f () = Except.error e →
        (run (scenarioAfter 3) clk key f fallback).registry.command_to_metadata key
          = some { m with
                   retries := m.retries + 1
                   last_triggered := clk.atFailure
                   state := CircuitBreakerState.CLOSED }) ∧
      (∀ v, f () = Except.ok v →
        ∃ m', (run (scenarioAfter 3) clk key f fallback).registry.command_to_metadata key
            = some m' ∧
          m'.state = CircuitBreakerState.OPEN)) :=
  probing_never_persists (scenarioAfter 3)
    (reachable_runAll (scenario.take 3) _ Reachable.empty)

/-- The entry under a key just written is the value written. -/
theorem entry_assign (cb : CircuitBreaker) (key : String) (m : CircuitBreakerMetadata) :
    (cb.assign key m).command_to_metadata key = some m ∧ (cb.assign key m).entry key = m := by
  simp [CircuitBreaker.assign, CircuitBreaker.entry, CircuitBreaker.insert]

/-- An entry agrees with itself. -/
theorem agreesWith_refl (m : CircuitBreakerMetadata) : m.AgreesWith m :=
  ⟨rfl, rfl, rfl, rfl, Or.inr rfl⟩

/-- What `run` returns or throws, what it invokes, and the entry it leaves under
the key depend on the registry only through the entry `run` works on. -/
theorem run_congr_entry {E T : Type} (cb₁ cb₂ : CircuitBreaker) (clk : Clock) (key : String)
    (f : Unit → Except E T) (fallback : Option (Unit → Except E T))
    (h : cb₁.entry key = cb₂.entry key) :
    (run cb₁ clk key f fallback).outcome = (run cb₂ clk key f fallback).outcome ∧
    (run cb₁ clk key f fallback).invoked = (run cb₂ clk key f fallback).invoked ∧
    (run cb₁ clk key f fallback).registry.entry key
      = (run cb₂ clk key f fallback).registry.entry key := by
  have key_fact : ∀ cb : CircuitBreaker,
      (run cb clk key f fallback).outcome
        = (run (cb.assign key (cb.entry key)) clk key f fallback).outcome ∧
      (run cb clk key f fallback).invoked
        = (run (cb.assign key (cb.entry key)) clk key f fallback).invoked ∧
      (run cb clk key f fallback).registry.entry key
        = (run (cb.assign key (cb.entry key)) clk key f fallback).registry.entry key := by
    intro cb
    cases hk : cb.command_to_metadata key with
    | none =>
      cases fallback <;> cases hf : f () <;>
        simp [run, attempt, CircuitBreaker.entry, CircuitBreaker.insert, CircuitBreaker.assign,
          hk, hf, initialMetadata]
    | some m =>
      have he : cb.entry key = m := by simp [CircuitBreaker.entry, CircuitBreaker.insert, hk]
      have hstored : cb.command_to_metadata key
          = (cb.assign key (cb.entry key)).command_to_metadata key := by
        rw [(entry_assign cb key (cb.entry key)).1, he, hk]
      obtain ⟨h1, h2, h3⟩ := run_congr cb (cb.assign key (cb.entry key)) clk key f fallback hstored
      exact ⟨h1, h2, entry_congr _ _ _ h3⟩
  obtain ⟨a1, a2, a3⟩ := key_fact cb₁
  obtain ⟨b1, b2, b3⟩ := key_fact cb₂
  have hst : (cb₁.assign key (cb₁.entry key)).command_to_metadata key
      = (cb₂.assign key (cb₂.entry key)).command_to_metadata key := by
    rw [(entry_assign _ _ _).1, (entry_assign _ _ _).1, h]
  obtain ⟨c1, c2, c3⟩ := run_congr _ _ clk key f fallback hst
  exact ⟨a1.trans (c1.trans b1.symm), a2.trans (c2.trans b2.symm),
    a3.trans ((entry_congr _ _ _ c3).trans b3.symm)⟩

/-- Two registries whose stored entries of `key` agree: a call on `key` returns
or throws the same and invokes the same on both, and leaves entries that agree. -/
theorem run_agrees_stored {E T : Type} (cb₁ cb₂ : CircuitBreaker) (clk : Clock) (key : String)
    (f : Unit → Except E T) (fallback : Option (Unit → Except E T))
    (m₁ m₂ : CircuitBreakerMetadata)
    (h₁ : cb₁.command_to_metadata key = some m₁) (h₂ : cb₂.command_to_metadata key = some m₂)
    (h : m₁.AgreesWith m₂) :
    (run cb₁ clk key f fallback).outcome = (run cb₂ clk key f fallback).outcome ∧
    (run cb₁ clk key f fallback).invoked = (run cb₂ clk key f fallback).invoked ∧
    ((run cb₁ clk key f fallback).registry.entry key).AgreesWith
      ((run cb₂ clk key f fallback).registry.entry key) := by
  obtain ⟨hs, hmax, hr, hw, hl⟩ := h
  by_cases hopen : m₁.state = CircuitBreakerState.OPEN
  · have hopen₂ : m₂.state = CircuitBreakerState.OPEN := hs ▸ hopen
    by_cases ht : m₁.max_retries < m₁.retries + 1
    · have ht₂ : m₂.max_retries < m₂.retries + 1 := by rw [← hmax, ← hr]; exact ht
      cases fallback <;> cases hf : f () <;>
        simp [run, attempt, CircuitBreaker.entry, CircuitBreaker.insert, CircuitBreaker.assign,
          h₁, h₂, hopen, hopen₂, hf, ht, ht₂, CircuitBreakerMetadata.AgreesWith, hmax, hr, hw]
    · have ht₂ : ¬ m₂.max_retries < m₂.retries + 1 := by rw [← hmax, ← hr]; exact ht
      cases fallback <;> cases hf : f () <;>
        simp [run, attempt, CircuitBreaker.entry, CircuitBreaker.insert, CircuitBreaker.assign,
          h₁, h₂, hopen, hopen₂, hf, ht, ht₂, CircuitBreakerMetadata.AgreesWith, hmax, hr, hw]
  · have hl' : m₁.last_triggered = m₂.last_triggered := hl.resolve_left hopen
    have heq : m₁ = m₂ := by
      cases m₁; cases m₂
      simp only [CircuitBreakerMetadata.mk.injEq]
      exact ⟨hs, hmax, hr, hw, hl'⟩
    subst heq
    obtain ⟨c1, c2, c3⟩ := run_congr cb₁ cb₂ clk key f fallback (h₁.trans h₂.symm)
    refine ⟨c1, c2, ?_⟩
    rw [entry_congr _ _ _ c3]
    exact agreesWith_refl _

/-- Two registries whose entries of `key` (stored or about to be created) agree:
a call on `key` returns or throws the same and invokes the same on both, and
leaves entries that agree. -/
theorem run_agrees {E T : Type} (cb₁ cb₂ : CircuitBreaker) (clk : Clock) (key : String)
    (f : Unit → Except E T) (fallback : Option (Unit → Except E T))
    (h : (cb₁.entry key).AgreesWith (cb₂.entry key)) :
    (run cb₁ clk key f fallback).outcome = (run cb₂ clk key f fallback).outcome ∧
    (run cb₁ clk key f fallback).invoked = (run cb₂ clk key f fallback).invoked ∧
    ((run cb₁ clk key f fallback).registry.entry key).AgreesWith
      ((run cb₂ clk key f fallback).registry.entry key) := by
  obtain ⟨a1, a2, a3⟩ := run_congr_entry cb₁ (cb₁.assign key (cb₁.entry key)) clk key f fallback
    (entry_assign _ _ _).2.symm
  obtain ⟨b1, b2, b3⟩ := run_congr_entry cb₂ (cb₂.assign key (cb₂.entry key)) clk key f fallback
    (entry_assign _ _ _).2.symm
  obtain ⟨c1, c2, c3⟩ := run_agrees_stored (cb₁.assign key (cb₁.entry key))
    (cb₂.assign key (cb₂.entry key)) clk key f fallback _ _
    (entry_assign _ _ _).1 (entry_assign _ _ _).1 h
  rw [a1, a2, a3, b1, b2, b3]
  exact ⟨c1, c2, c3⟩

/-- Two registries whose entries of `key` agree give the same log for every
sequence of calls on `key`. -/
theorem runLog_agrees {E T : Type} (key : String) (cs : List (Call E T)) :
    ∀ cb₁ cb₂ : CircuitBreaker, (cb₁.entry key).AgreesWith (cb₂.entry key) →
      (∀ c ∈ cs, c.key = key) → runLog key cb₁ cs = runLog key cb₂ cs := by
  induction cs with
  | nil => intro _ _ _ _; rfl
  | cons c cs ih =>
    intro cb₁ cb₂ h hall
    have hc : c.key = key := hall c (List.mem_cons_self c cs)
    obtain ⟨h1, h2, h3⟩ := run_agrees cb₁ cb₂ c.clk key c.f c.fallback h
    have h1' : (c.perform cb₁).outcome = (c.perform cb₂).outcome := by
      simpa [Call.perform, hc] using h1
    have h2' : (c.perform cb₁).invoked = (c.perform cb₂).invoked := by
      simpa [Call.perform, hc] using h2
    have h3' : ((c.perform cb₁).registry.entry key).AgreesWith
        ((c.perform cb₂).registry.entry key) := by
      simpa [Call.perform, hc] using h3
    simp only [runLog]
    rw [h1', h2', h3'.1,
      ih (c.perform cb₁).registry (c.perform cb₂).registry h3'
        (fun d hd => hall d (List.mem_cons_of_mem c hd))]

/-- From an entry in phase NORMAL with `retries = 0` and `max_retries = 2` it takes
three failures on the key to trip, whatever lies in between. -/
theorem normal_then_trip {E T : Type} (cb : CircuitBreaker) (key : String)
    (pre : List (Call E T)) (c : Call E T)
    (hs : (cb.entry key).state = CircuitBreakerState.OPEN)
    (hmax : (cb.entry key).max_retries = 2) (hr : (cb.entry key).retries = 0)
    (hc : c.key = key) (hpre : failuresOn key pre ≤ 2) :
    ((runAll cb pre).entry key).state = CircuitBreakerState.OPEN ∧
    ((runAll cb pre).entry key).retries = failuresOn key pre ∧
    Invocation.operation ∈ (c.perform (runAll cb pre)).invoked ∧
    (failuresOn key (pre ++ [c]) ≤ 2 →
      ((runAll cb (pre ++ [c])).entry key).state = CircuitBreakerState.OPEN) ∧
    (failuresOn key (pre ++ [c]) = 3 →
      ((runAll cb (pre ++ [c])).entry key).state = CircuitBreakerState.CLOSED ∧
      ((runAll cb (pre ++ [c])).entry key).retries = 3) := by
  obtain ⟨hs', hmax', hr'⟩ := runAll_normal key pre cb hs hmax (by rw [hr]; omega)
  have hcount : ((runAll cb pre).entry key).retries = (failuresOn key pre : Int) := by
    rw [hr', hr]; simp
  obtain ⟨hinv, _, _, htrip⟩ :=
    run_normal_step (runAll cb pre) c.clk key c.f c.fallback hs'
  refine ⟨hs', hcount, ?_, ?_, ?_⟩
  · simpa [Call.perform, hc] using hinv
  · intro hle
    exact (runAll_normal key (pre ++ [c]) cb hs hmax (by rw [hr]; omega)).1
  · intro h3
    rw [failuresOn_append_singleton] at h3
    have hcf : c.fails = true := by
      by_contra hn
      have : ¬ (c.key = key ∧ c.fails = true) := fun h => hn h.2
      simp only [this, if_false] at h3
      omega
    have h2 : failuresOn key pre = 2 := by
      simp only [hc, hcf, and_self, if_true] at h3
      omega
    cases hf : c.f () with
    | ok v => simp [Call.fails, hf] at hcf
    | error e =>
      have hover : ((runAll cb pre).entry key).max_retries
          < ((runAll cb pre).entry key).retries + 1 := by
        rw [hmax', hcount, h2]; norm_num
      have he := htrip e hf hover
      rw [runAll_append_singleton]
      have he' : (c.perform (runAll cb pre)).registry.entry key
          = { (runAll cb pre).entry key with
              retries := ((runAll cb pre).entry key).retries + 1
              last_triggered := c.clk.atFailure
              state := CircuitBreakerState.CLOSED } := by
        simpa [Call.perform, hc] using he
      rw [he']
      refine ⟨rfl, ?_⟩
      dsimp only
      rw [hcount, h2]; norm_num

/-- C20: full recovery after a successful probe.  In a registry reachable from the
empty one, a probe on `key` (entry BLOCKED, cool-down elapsed) whose operation
returns leaves the entry of a newly created key except for `last_triggered`,
which is the reading taken on entry.  From then on every sequence of calls on
`key`, with the same clock readings, gives call by call the same returned value
or exception, the same invocations and the same phase as it gives on a registry
without an entry for `key`; and again it takes three failures on `key` to trip:
the phase is NORMAL while at most two have occurred and BLOCKED after the third. -/
theorem full_recovery_after_probe {E T E' T' : Type} (cb : CircuitBreaker)
    (h : Reachable cb) (clk : Clock) (key : String) (f : Unit → Except E T)
    (fallback : Option (Unit → Except E T)) (m : CircuitBreakerMetadata) (v : T)
    (hm : cb.command_to_metadata key = some m)
    (hs : m.state = CircuitBreakerState.CLOSED)
    (hc : ¬ withinCoolDown m clk.atEntry)
    (hf : f () = Except.ok v) :
    (run cb clk key f fallback).registry.command_to_metadata key
      = some { initialMetadata with last_triggered := clk.atEntry } ∧
    (∀ (fresh : CircuitBreaker) (cs : List (Call E' T')),
      fresh.command_to_metadata key = none → (∀ c ∈ cs, c.key = key) →
      runLog key (run cb clk key f fallback).registry cs = runLog key fresh cs) ∧
    (∀ (pre : List (Call E' T')) (c : Call E' T'), c.key = key → failuresOn key pre ≤ 2 →
      ((runAll (run cb clk key f fallback).registry pre).entry key).state
        = CircuitBreakerState.OPEN ∧
      Invocation.operation
        ∈ (c.perform (runAll (run cb clk key f fallback).registry pre)).invoked ∧
      (failuresOn key (pre ++ [c]) ≤ 2 →
        ((runAll (run cb clk key f fallback).registry (pre ++ [c])).entry key).state
          = CircuitBreakerState.OPEN) ∧
      (failuresOn key (pre ++ [c]) = 3 →
        ((runAll (run cb clk key f fallback).registry (pre ++ [c])).entry key).state
          = CircuitBreakerState.CLOSED)) := by
  obtain ⟨hmax, hwait, _⟩ := reachable_settled cb h key m hm
  unfold withinCoolDown at hc
  rw [hwait] at hc
  have hstored : (run cb clk key f fallback).registry.command_to_metadata key
      = some { initialMetadata with last_triggered := clk.atEntry } := by
    cases fallback <;>
      simp [run, attempt, CircuitBreaker.insert, CircuitBreaker.assign, hm, hs, hc, hf,
        initialMetadata, hmax, hwait]
  have hentry : (run cb clk key f fallback).registry.entry key
      = { initialMetadata with last_triggered := clk.atEntry } := by
    simp [CircuitBreaker.entry, CircuitBreaker.insert, hstored]
  refine ⟨hstored, ?_, ?_⟩
  · intro fresh cs hfresh hall
    apply runLog_agrees key cs _ _ _ hall
    have hfe : fresh.entry key = initialMetadata := by
      simp [CircuitBreaker.entry, CircuitBreaker.insert, hfresh]
    rw [hentry, hfe]
    exact ⟨rfl, rfl, rfl, rfl, Or.inl rfl⟩
  · intro pre c hck hpre
    obtain ⟨a, _, b, d, e⟩ := normal_then_trip (run cb clk key f fallback).registry key pre c
      (by rw [hentry]; rfl) (by rw [hentry]; rfl) (by rw [hentry]; rfl) hck hpre
    exact ⟨a, b, d, fun h3 => (e h3).1⟩

theorem full_recovery_after_probe_witness :
    (run (scenarioAfter 3) (Clock.frozen (seconds 11)) "k" alwaysSucceeds
        none).registry.command_to_metadata "k"
      = some { initialMetadata with last_triggered := (Clock.frozen (seconds 11)).atEntry } ∧
    (∀ (fresh : CircuitBreaker) (cs : List (Call String Int)),
      fresh.command_to_metadata "k" = none → (∀ c ∈ cs, c.key = "k") →
      runLog "k" (run (scenarioAfter 3) (Clock.frozen (seconds 11)) "k" alwaysSucceeds
        none).registry cs = runLog "k" fresh cs) ∧
    (∀ (pre : List (Call String Int)) (c : Call String Int), c.key = "k" →
      failuresOn "k" pre ≤ 2 →
      ((runAll (run (scenarioAfter 3) (Clock.frozen (seconds 11)) "k" alwaysSucceeds
        none).registry pre).entry "k").state = CircuitBreakerState.OPEN ∧
      Invocation.operation
        ∈ (c.perform (runAll (run (scenarioAfter 3) (Clock.frozen (seconds 11)) "k"
            alwaysSucceeds none).registry pre)).invoked ∧
      (failuresOn "k" (pre ++ [c]) ≤ 2 →
        ((runAll (run (scenarioAfter 3) (Clock.frozen (seconds 11)) "k" alwaysSucceeds
          none).registry (pre ++ [c])).entry "k").state = CircuitBreakerState.OPEN) ∧
      (failuresOn "k" (pre ++ [c]) = 3 →
        ((runAll (run (scenarioAfter 3) (Clock.frozen (seconds 11)) "k" alwaysSucceeds
          none).registry (pre ++ [c])).entry "k").state = CircuitBreakerState.CLOSED)) :=
  full_recovery_after_probe (scenarioAfter 3)
    (reachable_runAll (scenario.take 3) _ Reachable.empty) (Clock.frozen (seconds 11)) "k"
    alwaysSucceeds none
    { state := CircuitBreakerState.CLOSED, max_retries := 2, retries := 3,
      wait_time := 10, last_triggered := 0 }
    1 (by decide) (by decide) (by decide) (by rfl)

end Hystrix
